import Mathlib

/-!
Verification of behavioural claims about the bhtom_base repository
(BHTOM-Team/bhtom_base), a set of Django plugin apps for an astronomical
Target and Observation Manager.

The development shallowly embeds the relevant Python functions:

* `bhtom_alerts/brokers/mars.py` : `MARSBroker._clean_parameters`,
  `MARSBroker._request_alerts`, `MARSBroker.fetch_alerts`,
  `MARSBroker.process_reduced_data` (the alert-retrieval prologue and the
  transactional insert).
* `bhtom_targets/utils.py` : `export_targets`, `import_targets`,
  `cone_search_filter`.
* `bhtom_common/templatetags/custom_filters.py` : `split_text`.
* `bhtom_dataproducts/models.py` : the `save` validation of
  `DataProduct` and `ReducedDatum`.
* `bhtom_dataproducts/data_processor.py` : the transactional insert of
  `run_data_processor`.

Python strings are modelled as `String`, Python ints as `Int`, dictionaries
as association lists with Python dict update semantics (replacing in place,
appending fresh keys at the end), and querysets as lists.
-/

/-! ## MARS broker: pagination (mars.py) -/

/-- MARS_URL constant from mars.py. -/
def MARS_URL : String := "https://mars.lco.global"

/-- Value of a Python dict entry in the MARS query-parameter dictionary:
either a string or an integer. -/
inductive PyVal where
  | str : String → PyVal
  | int : Int → PyVal
deriving DecidableEq, Repr

/-- Python truthiness of a parameter value: the empty string and the
integer 0 are falsy. -/
def PyVal.truthy : PyVal → Bool
  | .str s => s ≠ ""
  | .int n => n ≠ 0

/-- Python str() of a parameter value, as used by str.format. -/
def PyVal.render : PyVal → String
  | .str s => s
  | .int n => toString n

/-- Lookup in a Python dict modelled as an association list. -/
def dictGet (d : List (String × PyVal)) (k : String) : Option PyVal :=
  (d.find? (fun kv => kv.1 = k)).map (fun kv => kv.2)

/-- Assignment `d[k] = v` on a Python dict: replaces the value in place if
the key is present, otherwise appends the new binding at the end. -/
def dictSet (d : List (String × PyVal)) (k : String) (v : PyVal) :
    List (String × PyVal) :=
  match d with
  | [] => [(k, v)]
  | kv :: rest =>
      if kv.1 = k then (k, v) :: rest else kv :: dictSet rest k v

/-- MARSBroker._clean_parameters: keeps the items whose value is truthy
and whose key is not 'page'. -/
def clean_parameters (d : List (String × PyVal)) : List (String × PyVal) :=
  d.filter (fun kv => kv.2.truthy ∧ kv.1 ≠ "page")

/-- Mutation performed at the top of MARSBroker._request_alerts:
`if not parameters.get('page'): parameters['page'] = 1`. -/
def ensurePage (d : List (String × PyVal)) : List (String × PyVal) :=
  match dictGet d "page" with
  | some v => if v.truthy then d else dictSet d "page" (.int 1)
  | none => dictSet d "page" (.int 1)

/-- URL built by MARSBroker._request_alerts, parametrised by the url
encoding function `urlenc` (Python's urllib urlencode). -/
def request_url (urlenc : List (String × PyVal) → String)
    (parameters : List (String × PyVal)) : String :=
  let parameters := ensurePage parameters
  let args := urlenc (clean_parameters parameters)
  MARS_URL ++ "/?page=" ++ ((dictGet parameters "page").getD (.int 1)).render
    ++ "&format=json&" ++ args

/-- One JSON response of the MARS pagination endpoint: its 'results' list
and its 'has_next' flag. -/
structure MarsResponse (α : Type) where
  results : List α
  has_next : Bool

/-- Reset performed by _request_alerts on every call (mars.py lines
193-194): a falsy page value (the integer 0) is replaced by 1 before the
page is requested. The parameter dictionary is shared, so the loop
condition and the increment of fetch_alerts see the reset value. -/
def effPage (p : Int) : Int := if p = 0 then 1 else p

/-- Pages requested by MARSBroker.fetch_alerts when started on page
`page`, with the broker's response to each page given by `resp`. Each
recursive call performs exactly one page request via _request_alerts,
which first resets a falsy page value to 1; the recursion continues on
the successor of the page actually requested. -/
def fetchPages {α : Type} (resp : Int → MarsResponse α) (page : Int) :
    List Int :=
  if (resp (effPage page)).has_next ∧ effPage page < 10 then
    effPage page :: fetchPages resp (effPage page + 1)
  else
    [effPage page]
termination_by (10 - page).toNat
decreasing_by
  rename_i h
  by_cases hp : page = 0
  · subst hp
    norm_num [effPage]
  · simp only [effPage, if_neg hp] at h ⊢
    omega

/-- Alerts returned by MARSBroker.fetch_alerts when started on page
`page`: the 'results' of the page actually requested (after the falsy
reset of _request_alerts), followed by the alerts of the recursive call
when 'has_next' is set and the requested page number is below 10. -/
def fetch_alerts {α : Type} (resp : Int → MarsResponse α) (page : Int) :
    List α :=
  if (resp (effPage page)).has_next ∧ effPage page < 10 then
    (resp (effPage page)).results ++ fetch_alerts resp (effPage page + 1)
  else
    (resp (effPage page)).results
termination_by (10 - page).toNat
decreasing_by
  rename_i h
  by_cases hp : page = 0
  · subst hp
    norm_num [effPage]
  · simp only [effPage, if_neg hp] at h ⊢
    omega

/-- Starting page of a fetch_alerts run: the 'page' entry of the parameter
dictionary, set to 1 first when missing or falsy (mars.py line 193). -/
def startPage (pageEntry : Option Int) : Int :=
  match pageEntry with
  | none => 1
  | some p => if p = 0 then 1 else p

/-- Helper: the list of `n` consecutive integers starting at `p`. -/
def intervalFrom (p : Int) : Nat → List Int
  | 0 => []
  | n + 1 => p :: intervalFrom (p + 1) n

theorem mem_intervalFrom (q p : Int) (n : Nat) :
    q ∈ intervalFrom p n ↔ p ≤ q ∧ q < p + n := by
  induction n generalizing p with
  | zero => simp [intervalFrom]
  | succ m ih =>
      simp only [intervalFrom, List.mem_cons, ih]
      constructor
      · rintro (rfl | ⟨h1, h2⟩) <;> push_cast <;> omega
      · intro ⟨h1, h2⟩
        rcases eq_or_lt_of_le h1 with rfl | h3
        · exact Or.inl rfl
        · right
          push_cast at h2
          exact ⟨by omega, by omega⟩

theorem intervalFrom_consecutive (p : Int) (n : Nat) :
    (intervalFrom p n).Chain' (fun a b => b = a + 1) := by
  induction n generalizing p with
  | zero => simp [intervalFrom]
  | succ m ih =>
      cases m with
      | zero => simp [intervalFrom]
      | succ k =>
          refine List.chain'_cons.mpr ⟨rfl, ih (p + 1)⟩

theorem fetchPages_ne_nil {α : Type} (resp : Int → MarsResponse α)
    (page : Int) : fetchPages resp page ≠ [] := by
  rw [fetchPages]
  split <;> simp

theorem fetchPages_eq_interval {α : Type} (resp : Int → MarsResponse α)
    (page : Int) (hp : 1 ≤ page) :
    fetchPages resp page = intervalFrom page (fetchPages resp page).length := by
  generalize hn : (10 - page).toNat = n
  induction n using Nat.strong_induction_on generalizing page with
  | _ n ih =>
    have he : effPage page = page := if_neg (by omega)
    rw [fetchPages, he]
    split
    · rename_i h
      have hlt : page < 10 := h.2
      have hrec := ih (10 - (page + 1)).toNat (by omega) (page + 1)
        (by omega) rfl
      rw [List.length_cons]
      show page :: _ = page :: intervalFrom (page + 1) _
      exact congrArg (page :: ·) hrec
    · rw [List.length_singleton]
      simp [intervalFrom]

theorem fetchPages_length_le {α : Type} (resp : Int → MarsResponse α)
    (page : Int) (hp : 1 ≤ page) :
    (fetchPages resp page).length ≤ max 1 (11 - page).toNat := by
  generalize hn : (10 - page).toNat = n
  induction n using Nat.strong_induction_on generalizing page with
  | _ n ih =>
    have he : effPage page = page := if_neg (by omega)
    rw [fetchPages, he]
    split
    · rename_i h
      have hlt : page < 10 := h.2
      have := ih (10 - (page + 1)).toNat (by omega) (page + 1)
        (by omega) rfl
      simp only [List.length_cons]
      omega
    · simp only [List.length_singleton]
      omega

theorem fetch_alerts_eq_flatten {α : Type} (resp : Int → MarsResponse α)
    (page : Int) :
    fetch_alerts resp page =
      ((fetchPages resp page).map (fun q => (resp q).results)).flatten := by
  generalize hn : (10 - page).toNat = n
  induction n using Nat.strong_induction_on generalizing page with
  | _ n ih =>
    rw [fetch_alerts, fetchPages]
    split
    · rename_i h
      have hdec : (10 - (effPage page + 1)).toNat < (10 - page).toNat := by
        by_cases hp0 : page = 0
        · subst hp0
          norm_num [effPage]
        · have he : effPage page = page := if_neg hp0
          have h2 := h.2
          rw [he] at h2 ⊢
          omega
      have := ih (10 - (effPage page + 1)).toNat (by omega)
        (effPage page + 1) rfl
      simp [this]
    · simp

theorem fetchPages_stop {α : Type} (resp : Int → MarsResponse α)
    (page : Int) :
    (∀ q ∈ (fetchPages resp page).dropLast,
        (resp q).has_next = true ∧ q < 10) ∧
      (((resp ((fetchPages resp page).getLast
            (fetchPages_ne_nil resp page))).has_next = false ∨
        ¬ (fetchPages resp page).getLast
            (fetchPages_ne_nil resp page) < 10)) := by
  generalize hn : (10 - page).toNat = n
  induction n using Nat.strong_induction_on generalizing page with
  | _ n ih =>
    have hdec : (resp (effPage page)).has_next = true → effPage page < 10 →
        (10 - (effPage page + 1)).toNat < (10 - page).toNat := by
      intro _ h2
      by_cases hp0 : page = 0
      · subst hp0
        norm_num [effPage]
      · have he : effPage page = page := if_neg hp0
        rw [he] at h2 ⊢
        omega
    have hud := fetchPages_ne_nil resp (effPage page + 1)
    constructor
    · intro q hq
      rw [fetchPages] at hq
      split at hq
      · rename_i h
        rw [List.dropLast_cons_of_ne_nil
          (fetchPages_ne_nil resp (effPage page + 1))] at hq
        rcases List.mem_cons.mp hq with rfl | hq'
        · exact ⟨h.1, h.2⟩
        · exact ((ih (10 - (effPage page + 1)).toNat
            (by have := hdec h.1 h.2; omega)
            (effPage page + 1) rfl).1) q hq'
      · simp at hq
    · have hstep : fetchPages resp page =
          if (resp (effPage page)).has_next ∧ effPage page < 10 then
            effPage page :: fetchPages resp (effPage page + 1)
          else [effPage page] := by rw [fetchPages]
      by_cases h : (resp (effPage page)).has_next ∧ effPage page < 10
      · have hlast : (fetchPages resp page).getLast
            (fetchPages_ne_nil resp page) =
            (fetchPages resp (effPage page + 1)).getLast hud := by
          have : fetchPages resp page =
              effPage page :: fetchPages resp (effPage page + 1) := by
            rw [hstep, if_pos h]
          simp only [this]
          exact List.getLast_cons hud
        rw [hlast]
        exact (ih (10 - (effPage page + 1)).toNat
          (by have := hdec h.1 h.2; omega) (effPage page + 1) rfl).2
      · have hone : fetchPages resp page = [effPage page] := by
          rw [hstep, if_neg h]
        have hlast : (fetchPages resp page).getLast
            (fetchPages_ne_nil resp page) = effPage page := by
          simp [hone]
        rw [hlast]
        rcases Decidable.not_and_iff_or_not.mp h with h1 | h2
        · exact Or.inl (by simpa using h1)
        · exact Or.inr h2

theorem fetchPages_length_always_next {α : Type}
    (resp : Int → MarsResponse α)
    (h : ∀ q, (resp q).has_next = true) (p : Int) (hp : p ≤ 10) :
    (fetchPages resp p).length =
      if p ≤ 0 then 10 + (-p).toNat else (11 - p).toNat := by
  generalize hn : (10 - p).toNat = n
  induction n using Nat.strong_induction_on generalizing p with
  | _ n ih =>
    rw [fetchPages]
    by_cases hp0 : p = 0
    · subst hp0
      rw [show effPage 0 = 1 from rfl,
        if_pos ⟨h 1, by norm_num⟩, List.length_cons,
        ih ((10 : Int) - (1 + 1)).toNat (by omega) (1 + 1) (by omega) rfl]
      rw [if_neg (by norm_num : ¬((1 : Int) + 1 ≤ 0)),
        if_pos (by norm_num : (0 : Int) ≤ 0)]
      omega
    · have he : effPage p = p := if_neg hp0
      rw [he]
      by_cases hlt : p < 10
      · rw [if_pos ⟨h p, hlt⟩, List.length_cons,
          ih (10 - (p + 1)).toNat (by omega) (p + 1) (by omega) rfl]
        by_cases hp1 : p + 1 ≤ 0
        · rw [if_pos hp1, if_pos (by omega)]
          omega
        · rw [if_neg hp1]
          by_cases hp2 : p ≤ 0
          · rw [if_pos hp2]
            omega
          · rw [if_neg hp2]
            omega
      · rw [if_neg (by tauto), List.length_singleton]
        have h10 : p = 10 := by omega
        subst h10
        rw [if_neg (by norm_num : ¬((10 : Int) ≤ 0))]
        omega

/-- C1 (amended): for every broker response sequence and every parameter
dictionary whose page entry (defaulting to 1 when absent or falsy) is at
least 1, MARSBroker.fetch_alerts requests consecutive increasing pages
starting at that page, every non-final requested page had has_next true
and number below 10, the final requested page had has_next false or
number at least 10, at most 10 page requests are issued, and the returned
alerts are the concatenation of the 'results' lists of the requested
pages in page order. (The original claim, without the lower bound on the
starting page, fails: see the counterexample.) -/
theorem C1_mars_fetch_alerts_pagination {α : Type}
    (resp : Int → MarsResponse α) (pageEntry : Option Int)
    (h : 1 ≤ startPage pageEntry) :
    fetchPages resp (startPage pageEntry) =
      intervalFrom (startPage pageEntry)
        (fetchPages resp (startPage pageEntry)).length ∧
    (∀ q ∈ (fetchPages resp (startPage pageEntry)).dropLast,
        (resp q).has_next = true ∧ q < 10) ∧
    (∀ q, (fetchPages resp (startPage pageEntry)).getLast? = some q →
        (resp q).has_next = false ∨ 10 ≤ q) ∧
    (fetchPages resp (startPage pageEntry)).length ≤ 10 ∧
    fetch_alerts resp (startPage pageEntry) =
      ((fetchPages resp (startPage pageEntry)).map
        (fun q => (resp q).results)).flatten := by
  refine ⟨fetchPages_eq_interval resp _ h, (fetchPages_stop resp _).1,
    ?_, ?_, fetch_alerts_eq_flatten resp _⟩
  · intro q hq
    have h2 := (fetchPages_stop resp (startPage pageEntry)).2
    rw [List.getLast?_eq_getLast _ (fetchPages_ne_nil resp _)] at hq
    have hq' := Option.some.inj hq
    rw [hq'] at h2
    rcases h2 with h3 | h3
    · exact Or.inl h3
    · exact Or.inr (by omega)
  · have hle := fetchPages_length_le resp (startPage pageEntry) h
    refine le_trans hle (Nat.max_le.mpr ⟨by norm_num, by omega⟩)

/-- C1 witness: instantiation at the defaulted page 1 and a broker that
immediately reports has_next false. -/
theorem C1_witness :
    1 ≤ startPage none ∧
      (fetchPages (fun _ => MarsResponse.mk ([] : List Nat) false)
        (startPage none)).length ≤ 10 :=
  ⟨by decide,
    (C1_mars_fetch_alerts_pagination
      (fun _ => MarsResponse.mk ([] : List Nat) false) none (by decide)).2.2.2.1⟩

/-- C1 counterexample: with the 'page' entry set to -3 (a truthy value, so
not defaulted) and a broker whose every response has has_next true,
fetch_alerts requests pages -3, -2 and -1, the incremented page 0 is then
reset to 1 by _request_alerts, and pages 1 through 10 follow: 13 page
requests in total (page 0 is never requested), refuting the claimed bound
of at most 10 page requests for every parameter dictionary. -/
theorem C1_counterexample :
    (fetchPages (fun _ => MarsResponse.mk [()] true)
      (startPage (some (-3)))).length = 13 ∧
    10 < (fetchPages (fun _ => MarsResponse.mk [()] true)
      (startPage (some (-3)))).length := by
  have h := fetchPages_length_always_next
    (fun _ => MarsResponse.mk [()] true) (fun _ => rfl) (-3) (by norm_num)
  have hs : startPage (some (-3)) = -3 := by norm_num [startPage]
  rw [if_pos (by norm_num)] at h
  rw [hs, h]
  omega


/-! ## MARS broker: the URL of a single page request (C6) -/

/-- Page value used in the request URL: the dictionary's 'page' entry, set
to 1 first when missing or falsy. -/
def effectivePage (params : List (String × PyVal)) : PyVal :=
  match dictGet params "page" with
  | some v => if v.truthy then v else .int 1
  | none => .int 1

theorem dictGet_dictSet (d : List (String × PyVal)) (k : String)
    (v : PyVal) : dictGet (dictSet d k v) k = some v := by
  induction d with
  | nil => simp [dictSet, dictGet]
  | cons kv rest ih =>
      by_cases h : kv.1 = k
      · simp [dictSet, h, dictGet]
      · simp only [dictSet, if_neg h]
        simp only [dictGet, List.find?] at ih ⊢
        rw [decide_eq_false h]
        exact ih

theorem clean_dictSet_page (d : List (String × PyVal)) (v : PyVal) :
    clean_parameters (dictSet d "page" v) = clean_parameters d := by
  induction d with
  | nil => simp [dictSet, clean_parameters]
  | cons kv rest ih =>
      by_cases h : kv.1 = "page"
      · simp [dictSet, h, clean_parameters, List.filter_cons]
      · simp only [dictSet, if_neg h, clean_parameters, List.filter_cons] at ih ⊢
        rw [ih]

theorem clean_ensurePage (d : List (String × PyVal)) :
    clean_parameters (ensurePage d) = clean_parameters d := by
  unfold ensurePage
  cases hv : dictGet d "page" with
  | none => exact clean_dictSet_page d _
  | some v =>
      by_cases h : v.truthy
      · simp [h]
      · simp only [h, Bool.false_eq_true, if_neg]
        simpa using clean_dictSet_page d (.int 1)

theorem dictGet_ensurePage (d : List (String × PyVal)) :
    dictGet (ensurePage d) "page" = some (effectivePage d) := by
  unfold ensurePage effectivePage
  cases hv : dictGet d "page" with
  | none => simp [dictGet_dictSet]
  | some v =>
      by_cases h : v.truthy
      · simp [h, hv]
      · simp [h, dictGet_dictSet]

/-- C6: for every parameter dictionary, the URL requested by
MARSBroker._request_alerts is '{MARS_URL}/?page={p}&format=json&{args}'
where p is the dictionary's 'page' entry (set to 1 first when missing or
falsy) and args is the URL encoding of exactly those key/value pairs of
the dictionary whose value is truthy and whose key is not 'page'. -/
theorem C6_mars_request_url (urlenc : List (String × PyVal) → String)
    (params : List (String × PyVal)) :
    request_url urlenc params =
      MARS_URL ++ "/?page=" ++ (effectivePage params).render
        ++ "&format=json&"
        ++ urlenc (params.filter
            (fun kv => kv.2.truthy ∧ kv.1 ≠ "page")) := by
  simp only [request_url, dictGet_ensurePage, Option.getD_some]
  rw [clean_ensurePage]
  rfl

/-! ## split_text (bhtom_common/templatetags/custom_filters.py, C9) -/

/-- Loop of split_text: walks the characters accumulating the current
line and its character count, emitting the line every time the count
reaches max_length, and finally the leftover line when nonempty. -/
def splitTextLoop (maxLen : Nat) :
    List Char → List (List Char) → List Char → Nat → List (List Char)
  | [], result, line, _ => if line = [] then result else result ++ [line]
  | c :: cs, result, line, cnt =>
      if cnt + 1 = maxLen then
        splitTextLoop maxLen cs (result ++ [line ++ [c]]) [] 0
      else
        splitTextLoop maxLen cs result (line ++ [c]) (cnt + 1)

/-- split_text filter: the emitted lines joined by single newlines. -/
def split_text (value : String) (maxLen : Nat) : String :=
  String.intercalate "\n"
    ((splitTextLoop maxLen value.data [] [] 0).map (fun l => String.mk l))

/-- Consecutive m-character slices of a list, the last possibly shorter,
with no empty trailing chunk; stated from the claim for comparison with
the source's split_text. -/
def chunksSpec (m : Nat) (l : List Char) : List (List Char) :=
  if h : l = [] ∨ m = 0 then [] else l.take m :: chunksSpec m (l.drop m)
termination_by l.length
decreasing_by
  push_neg at h
  have h1 : 0 < l.length := List.length_pos.mpr h.1
  have h2 : 0 < m := Nat.pos_of_ne_zero h.2
  simp only [List.length_drop]
  omega

theorem chunksSpec_cons (m : Nat) (l : List Char) (h1 : l ≠ [])
    (h2 : m ≠ 0) :
    chunksSpec m l = l.take m :: chunksSpec m (l.drop m) := by
  rw [chunksSpec]
  rw [dif_neg (by tauto)]

theorem chunksSpec_nil (m : Nat) : chunksSpec m [] = [] := by
  rw [chunksSpec]
  simp

theorem splitTextLoop_eq_chunks (m : Nat) (hm : 0 < m) :
    ∀ (cs : List Char) (res : List (List Char)) (line : List Char),
      line.length < m →
      splitTextLoop m cs res line line.length =
        res ++ chunksSpec m (line ++ cs) := by
  intro cs
  induction cs with
  | nil =>
      intro res line hline
      simp only [splitTextLoop, List.append_nil]
      by_cases h : line = []
      · simp [h, chunksSpec_nil]
      · have ht : List.take m line = line :=
          List.take_of_length_le (le_of_lt hline)
        have hd : List.drop m line = [] :=
          List.drop_eq_nil_of_le (le_of_lt hline)
        rw [if_neg h, chunksSpec_cons m line h (by omega), ht, hd,
          chunksSpec_nil]
  | cons c cs ih =>
      intro res line hline
      simp only [splitTextLoop]
      by_cases h : line.length + 1 = m
      · rw [if_pos h]
        have h0 : (0 : Nat) < m := hm
        have := ih (res ++ [line ++ [c]]) [] (by simpa using hm)
        simp only [List.length_nil, List.nil_append] at this
        rw [this]
        have hlc : (line ++ [c]).length = m := by
          simp [h]
        have hsplit : line ++ c :: cs = (line ++ [c]) ++ cs := by
          simp
        rw [hsplit, chunksSpec_cons m ((line ++ [c]) ++ cs) (by simp)
          (by omega), List.take_left' hlc, List.drop_left' hlc]
        simp
      · rw [if_neg h]
        have := ih res (line ++ [c]) (by simp; omega)
        simp only [List.length_append, List.length_singleton] at this
        rw [this]
        simp

theorem chunksSpec_flatten (m : Nat) (hm : m ≠ 0) (l : List Char) :
    (chunksSpec m l).flatten = l := by
  generalize hn : l.length = n
  induction n using Nat.strong_induction_on generalizing l with
  | _ n ih =>
    by_cases h : l = []
    · rw [h, chunksSpec_nil]
      rfl
    · rw [chunksSpec_cons m l h hm]
      have h1 : 0 < l.length := List.length_pos.mpr h
      have h2 : 0 < m := Nat.pos_of_ne_zero hm
      rw [List.flatten_cons,
        ih (l.drop m).length (by simp only [List.length_drop]; omega) _ rfl]
      exact List.take_append_drop m l

theorem chunksSpec_chunk_bounds (m : Nat) (hm : m ≠ 0) (l : List Char) :
    ∀ c ∈ chunksSpec m l, c ≠ [] ∧ c.length ≤ m := by
  generalize hn : l.length = n
  induction n using Nat.strong_induction_on generalizing l with
  | _ n ih =>
    by_cases h : l = []
    · rw [h, chunksSpec_nil]
      simp
    · rw [chunksSpec_cons m l h hm]
      have h1 : 0 < l.length := List.length_pos.mpr h
      have h2 : 0 < m := Nat.pos_of_ne_zero hm
      intro c hc
      rcases List.mem_cons.mp hc with rfl | hc'
      · refine ⟨?_, List.length_take_le m l⟩
        simp only [ne_eq, List.take_eq_nil_iff]
        push_neg
        exact ⟨fun hk => hm hk, h⟩
      · exact ih (l.drop m).length
          (by simp only [List.length_drop]; omega) _ rfl c hc'

/-- C9: for every string s and positive m, split_text(s, m) is the
consecutive m-character chunks of s (the last possibly shorter, no empty
trailing chunk) joined by single newlines; the chunks concatenate back to
s and every chunk has length at most m. -/
theorem C9_split_text (s : String) (m : Nat) (h : 0 < m) :
    split_text s m =
      String.intercalate "\n"
        ((chunksSpec m s.data).map (fun l => String.mk l)) ∧
    (chunksSpec m s.data).flatten = s.data ∧
    ∀ c ∈ chunksSpec m s.data, c ≠ [] ∧ c.length ≤ m := by
  refine ⟨?_, chunksSpec_flatten m (by omega) s.data,
    chunksSpec_chunk_bounds m (by omega) s.data⟩
  unfold split_text
  have := splitTextLoop_eq_chunks m h s.data [] [] (by simpa using h)
  simp only [List.length_nil, List.nil_append] at this
  rw [this]

/-- C9 witness: instantiation at the string "abcdefg" with chunk size 3. -/
theorem C9_witness :
    0 < 3 ∧ (chunksSpec 3 "abcdefg".data).flatten = "abcdefg".data :=
  ⟨by decide, (C9_split_text "abcdefg" 3 (by decide)).2.1⟩

/-! ## DataProduct.save and ReducedDatum.save validation
(bhtom_dataproducts/models.py, C10) -/

/-- for-else validation loop of DataProduct.save over the codes (first
tuple elements) of settings.DATA_PRODUCT_TYPES: the result is true when
the loop finishes without break, i.e. when ValidationError('Not a valid
DataProduct type.') is raised. The loop breaks on an entry when the
instance's data_product_type is falsy or equals the entry's code. -/
def dataProductSaveRaises (codes : List String) (t : String) : Bool :=
  match codes with
  | [] => true
  | code :: rest =>
      if t = "" ∨ t = code then false else dataProductSaveRaises rest t

/-- for-else validation loop of ReducedDatum.save: the loop breaks on an
entry only when data_type is truthy and equals the entry's code. -/
def reducedDatumSaveRaises (codes : List String) (t : String) : Bool :=
  match codes with
  | [] => true
  | code :: rest =>
      if t ≠ "" ∧ t = code then false else reducedDatumSaveRaises rest t

theorem dataProductSaveRaises_iff (codes : List String) (t : String) :
    dataProductSaveRaises codes t = true ↔
      ∀ c ∈ codes, ¬(t = "" ∨ t = c) := by
  induction codes with
  | nil => simp [dataProductSaveRaises]
  | cons code rest ih =>
      by_cases h : t = "" ∨ t = code
      · simp only [dataProductSaveRaises, if_pos h, Bool.false_eq_true,
          false_iff]
        intro hall
        exact hall code (List.mem_cons_self code rest) h
      · simp only [dataProductSaveRaises, if_neg h, ih, List.mem_cons]
        constructor
        · intro hall c hc
          rcases hc with rfl | hc'
          · exact h
          · exact hall c hc'
        · intro hall c hc
          exact hall c (Or.inr hc)

theorem reducedDatumSaveRaises_iff (codes : List String) (t : String) :
    reducedDatumSaveRaises codes t = true ↔
      ∀ c ∈ codes, ¬(t ≠ "" ∧ t = c) := by
  induction codes with
  | nil => simp [reducedDatumSaveRaises]
  | cons code rest ih =>
      by_cases h : t ≠ "" ∧ t = code
      · simp only [reducedDatumSaveRaises, if_pos h, Bool.false_eq_true,
          false_iff]
        intro hall
        exact hall code (List.mem_cons_self code rest) h
      · simp only [reducedDatumSaveRaises, if_neg h, ih, List.mem_cons]
        constructor
        · intro hall c hc
          rcases hc with rfl | hc'
          · exact h
          · exact hall c hc'
        · intro hall c hc
          exact hall c (Or.inr hc)

/-- C10 (amended): provided at least one data product type is configured,
DataProduct.save raises ValidationError if and only if data_product_type
is a nonempty string equal to no configured code (so an empty
data_product_type is accepted), and ReducedDatum.save raises if and only
if data_type is empty or equal to no configured code (so it additionally
rejects an empty data_type). The original claim, which does not require a
nonempty configuration, fails: see the counterexample. -/
theorem C10_save_type_validation (codes : List String) (t : String)
    (hne : codes ≠ []) :
    (dataProductSaveRaises codes t = true ↔ (t ≠ "" ∧ t ∉ codes)) ∧
    (reducedDatumSaveRaises codes t = true ↔ (t = "" ∨ t ∉ codes)) := by
  constructor
  · rw [dataProductSaveRaises_iff]
    constructor
    · intro hall
      obtain ⟨c0, hc0⟩ := List.exists_mem_of_ne_nil codes hne
      have h0 := hall c0 hc0
      push_neg at h0
      exact ⟨h0.1, fun hmem => (hall t hmem).elim (Or.inr rfl)⟩
    · intro ⟨h1, h2⟩ c hc
      push_neg
      exact ⟨h1, fun heq => h2 (heq ▸ hc)⟩
  · rw [reducedDatumSaveRaises_iff]
    constructor
    · intro hall
      by_cases he : t = ""
      · exact Or.inl he
      · exact Or.inr (fun hmem => hall t hmem ⟨he, rfl⟩)
    · intro h c hc hcontra
      rcases h with he | hnm
      · exact hcontra.1 he
      · exact hnm (hcontra.2 ▸ hc)

/-- C10 witness: instantiation at a one-element configuration and a
data_product_type matching no configured code. -/
theorem C10_witness :
    (["photometry"] : List String) ≠ [] ∧
      (dataProductSaveRaises ["photometry"] "junk" = true ↔
        ("junk" ≠ "" ∧ "junk" ∉ (["photometry"] : List String))) :=
  ⟨by decide,
    (C10_save_type_validation ["photometry"] "junk" (by decide)).1⟩

/-- C10 counterexample: with an empty DATA_PRODUCT_TYPES configuration the
for-else loop never breaks, so DataProduct.save raises even for an empty
data_product_type, contradicting the claim that an empty data_product_type
is always accepted and saved. -/
theorem C10_counterexample :
    dataProductSaveRaises [] "" = true ∧
      ¬(("" : String) ≠ "" ∧ ("" : String) ∉ ([] : List String)) :=
  ⟨rfl, by simp⟩

/-! ## MARSBroker.process_reduced_data: alert-retrieval prologue (C7) -/

/-- Fields of a stored ReducedDatum row consulted by the prologue of
MARSBroker.process_reduced_data. -/
structure ReducedDatumRow where
  target : Nat
  data_type : String
  source_name : String
  source_location : String

/-- Result of MARSBroker.fetch_alert (requests.get followed by
raise_for_status): either the parsed alert or an HTTPError. -/
inductive FetchResult (α : Type) where
  | ok : α → FetchResult α
  | httpError : FetchResult α

/-- Outcome of the prologue of MARSBroker.process_reduced_data when it is
called without an alert: an early return (no state modified), a raised
exception, or a fetched alert with which processing continues. -/
inductive AlertPrologue (α : Type) where
  | returned : AlertPrologue α
  | raised : String → AlertPrologue α
  | alert : α → AlertPrologue α
deriving DecidableEq

/-- Queryset filter of the prologue:
ReducedDatum.objects.filter(target=target, data_type='photometry',
source_name='MARS'), with self.name = 'MARS'. -/
def marsDatumFilter (stored : List ReducedDatumRow) (target : Nat) :
    List ReducedDatumRow :=
  stored.filter (fun d => d.target = target ∧ d.data_type = "photometry"
    ∧ d.source_name = "MARS")

/-- Prologue of MARSBroker.process_reduced_data for alert=None: takes the
first matching stored datum, returns early when none exists, otherwise
fetches the alert at the datum's source_location, re-raising an HTTPError
as a generic Exception with a fixed message. -/
def process_reduced_data_no_alert {α : Type}
    (stored : List ReducedDatumRow) (target : Nat)
    (fetch : String → FetchResult α) : AlertPrologue α :=
  match (marsDatumFilter stored target).head? with
  | none => .returned
  | some d =>
      match fetch d.source_location with
      | .ok a => .alert a
      | .httpError =>
          .raised "Unable to retrieve alert information from broker"

/-- C7: when MARSBroker.process_reduced_data is called without an alert
and a stored photometry ReducedDatum with source_name 'MARS' exists for
the target, a fetch failing with HTTPError is re-raised as a generic
Exception with the message 'Unable to retrieve alert information from
broker'; when no such stored datum exists, the call returns early without
raising and without modifying any state. -/
theorem C7_process_reduced_data_error_handling {α : Type}
    (stored : List ReducedDatumRow) (target : Nat)
    (fetch : String → FetchResult α) :
    (∀ d, (marsDatumFilter stored target).head? = some d →
        fetch d.source_location = .httpError →
        process_reduced_data_no_alert stored target fetch =
          .raised "Unable to retrieve alert information from broker") ∧
    ((marsDatumFilter stored target).head? = none →
        process_reduced_data_no_alert stored target fetch = .returned) := by
  constructor
  · intro d hd hfetch
    simp only [process_reduced_data_no_alert, hd, hfetch]
  · intro hnone
    simp only [process_reduced_data_no_alert, hnone]

/-- C7 witness: instantiations with a matching stored datum whose fetch
raises HTTPError, and with an empty store. -/
theorem C7_witness :
    process_reduced_data_no_alert
        [ReducedDatumRow.mk 1 "photometry" "MARS" "12345"] 1
        (fun _ => (FetchResult.httpError : FetchResult Unit)) =
      .raised "Unable to retrieve alert information from broker" ∧
    process_reduced_data_no_alert ([] : List ReducedDatumRow) 1
        (fun _ => (FetchResult.httpError : FetchResult Unit)) = .returned :=
  ⟨(C7_process_reduced_data_error_handling
        [ReducedDatumRow.mk 1 "photometry" "MARS" "12345"] 1
        (fun _ => (FetchResult.httpError : FetchResult Unit))).1
      (ReducedDatumRow.mk 1 "photometry" "MARS" "12345") rfl rfl,
    (C7_process_reduced_data_error_handling ([] : List ReducedDatumRow) 1
        (fun _ => (FetchResult.httpError : FetchResult Unit))).2 rfl⟩

/-! ## Transactional bulk inserts (C8) -/

/-- Modelled from the spec: a sequential multi-row insert against a
database whose per-row failure behaviour is given by the oracle `fails`;
insertion stops at the first failing row, leaving the rows inserted so
far and reporting failure. -/
def insertRowsSeq {ρ : Type} (fails : ρ → Bool) (db : List ρ) :
    List ρ → List ρ × Bool
  | [] => (db, true)
  | r :: rest =>
      if fails r then (db, false) else insertRowsSeq fails (db ++ [r]) rest

/-- Modelled from the spec: Django's transaction.atomic wrapping a
bulk_create, as used at mars.py lines 277-278 and data_processor.py lines
48-49; when the write inside the block raises, the transaction rolls all
of its writes back, leaving the stored rows unchanged. transaction.atomic
is framework code outside this repository; its rollback semantics follow
the spec's description of database transactions wrapping multi-row
writes. -/
def atomicBulkCreate {ρ : Type} (fails : ρ → Bool) (db : List ρ)
    (rows : List ρ) : List ρ × Bool :=
  let res := insertRowsSeq fails db rows
  if res.2 then res else (db, false)

/-- Insert performed by MARSBroker.process_reduced_data (mars.py lines
277-278): with transaction.atomic():
ReducedDatum.objects.bulk_create(reduced_data, ignore_conflicts=True). -/
def mars_bulk_insert {ρ : Type} (fails : ρ → Bool) (db : List ρ)
    (rows : List ρ) : List ρ × Bool :=
  atomicBulkCreate fails db rows

/-- Insert performed by run_data_processor (data_processor.py lines
48-49): with transaction.atomic():
ReducedDatum.objects.bulk_create(reduced_datums). -/
def run_data_processor_insert {ρ : Type} (fails : ρ → Bool) (db : List ρ)
    (rows : List ρ) : List ρ × Bool :=
  atomicBulkCreate fails db rows

theorem insertRowsSeq_ok {ρ : Type} (fails : ρ → Bool) :
    ∀ (rows db : List ρ), (insertRowsSeq fails db rows).2 = true →
      (insertRowsSeq fails db rows).1 = db ++ rows := by
  intro rows
  induction rows with
  | nil =>
      intro db _
      simp [insertRowsSeq]
  | cons r rest ih =>
      intro db h
      by_cases hf : fails r = true
      · rw [insertRowsSeq, if_pos hf] at h
        simp at h
      · rw [insertRowsSeq, if_neg hf] at h ⊢
        rw [ih (db ++ [r]) h]
        simp

theorem atomicBulkCreate_all_or_nothing {ρ : Type} (fails : ρ → Bool)
    (db rows : List ρ) :
    ((atomicBulkCreate fails db rows).2 = true →
      (atomicBulkCreate fails db rows).1 = db ++ rows) ∧
    ((atomicBulkCreate fails db rows).2 = false →
      (atomicBulkCreate fails db rows).1 = db) := by
  unfold atomicBulkCreate
  by_cases h : (insertRowsSeq fails db rows).2 = true
  · rw [if_pos h]
    exact ⟨fun _ => insertRowsSeq_ok fails rows db h,
      fun hc => absurd (h.symm.trans hc) (by simp)⟩
  · rw [if_neg h]
    exact ⟨fun hc => absurd hc (by simp), fun _ => rfl⟩

/-- C8: both multi-row ReducedDatum insertions — the bulk_create in
MARSBroker.process_reduced_data and the bulk_create in run_data_processor
— run inside a database transaction, so for every failure oracle, stored
state and row list, either all constructed rows are appended to the
stored rows, or the insertion fails and the stored rows are unchanged. -/
theorem C8_bulk_create_transactional {ρ : Type} (fails : ρ → Bool)
    (db rows : List ρ) :
    (((mars_bulk_insert fails db rows).2 = true →
        (mars_bulk_insert fails db rows).1 = db ++ rows) ∧
      ((mars_bulk_insert fails db rows).2 = false →
        (mars_bulk_insert fails db rows).1 = db)) ∧
    (((run_data_processor_insert fails db rows).2 = true →
        (run_data_processor_insert fails db rows).1 = db ++ rows) ∧
      ((run_data_processor_insert fails db rows).2 = false →
        (run_data_processor_insert fails db rows).1 = db)) :=
  ⟨atomicBulkCreate_all_or_nothing fails db rows,
    atomicBulkCreate_all_or_nothing fails db rows⟩

/-- C8 witness: a two-row insert that succeeds, and one whose second row
fails and is rolled back together with the first. -/
theorem C8_witness :
    (mars_bulk_insert (fun _ => false) ([] : List Nat) [1, 2]).1 =
        [] ++ [1, 2] ∧
      (run_data_processor_insert (fun r => r = 2) ([] : List Nat)
        [1, 2]).1 = [] :=
  ⟨(C8_bulk_create_transactional (fun _ => false) ([] : List Nat)
      [1, 2]).1.1 rfl,
    (C8_bulk_create_transactional (fun r => decide (r = 2))
      ([] : List Nat) [1, 2]).2.2 rfl⟩

/-! ## cone_search_filter (bhtom_targets/utils.py, C3) -/

/-- Degrees to radians, as in astropy's unit conversion. -/
noncomputable def radOfDeg (x : ℝ) : ℝ := x * (Real.pi / 180)

/-- Modelled from the spec: the angular (great-circle) separation in
degrees between the sky positions (ra1, dec1) and (ra2, dec2), given in
degrees, as computed by astropy's SkyCoord.separation; astropy is
third-party code outside this repository, and the spec's phrase 'angular
(great-circle) separation' fixes the standard spherical-law-of-cosines
formula. -/
noncomputable def separationDeg (ra1 dec1 ra2 dec2 : ℝ) : ℝ :=
  Real.arccos (Real.sin (radOfDeg dec1) * Real.sin (radOfDeg dec2) +
      Real.cos (radOfDeg dec1) * Real.cos (radOfDeg dec2) *
        Real.cos (radOfDeg ra1 - radOfDeg ra2)) * (180 / Real.pi)

/-- Bounding-box prefilter of cone_search_filter (utils.py lines
151-155): ra within [ra - 2*radius, ra + 2*radius] and dec within
[dec - 2*radius, dec + 2*radius]. -/
def inPrefilterBox (tra tdec ra dec radius : ℝ) : Prop :=
  ra - 2 * radius ≤ tra ∧ tra ≤ ra + 2 * radius ∧
    dec - 2 * radius ≤ tdec ∧ tdec ≤ dec + 2 * radius

/-- Membership in the queryset returned by cone_search_filter: the final
filter(id__in=matching_ids) is applied to the box-filtered queryset, so a
target is returned exactly when it passes the bounding-box prefilter and
its separation from the center is at most radius. -/
def coneSearchSelects (tra tdec ra dec radius : ℝ) : Prop :=
  inPrefilterBox tra tdec ra dec radius ∧
    separationDeg tra tdec ra dec ≤ radius

theorem arccos_antitone {x y : ℝ} (h : x ≤ y) :
    Real.arccos y ≤ Real.arccos x := by
  simp only [Real.arccos_eq_pi_div_two_sub_arcsin]
  have := Real.monotone_arcsin h
  linarith

theorem radOfDeg_mem (x : ℝ) (hl : -90 ≤ x) (hr : x ≤ 90) :
    -(Real.pi / 2) ≤ radOfDeg x ∧ radOfDeg x ≤ Real.pi / 2 := by
  unfold radOfDeg
  have hpos : (0 : ℝ) ≤ Real.pi / 180 := by positivity
  constructor
  · have := mul_le_mul_of_nonneg_right hl hpos
    linarith
  · have := mul_le_mul_of_nonneg_right hr hpos
    linarith

theorem separationDeg_ge_dec_gap (ra1 dec1 ra2 dec2 : ℝ)
    (h1 : -90 ≤ dec1) (h2 : dec1 ≤ 90) (h3 : -90 ≤ dec2)
    (h4 : dec2 ≤ 90) :
    |dec1 - dec2| ≤ separationDeg ra1 dec1 ra2 dec2 := by
  have hπ : (0 : ℝ) < Real.pi := Real.pi_pos
  have hm1 := radOfDeg_mem dec1 h1 h2
  have hm2 := radOfDeg_mem dec2 h3 h4
  have hc1 : 0 ≤ Real.cos (radOfDeg dec1) :=
    Real.cos_nonneg_of_mem_Icc ⟨hm1.1, hm1.2⟩
  have hc2 : 0 ≤ Real.cos (radOfDeg dec2) :=
    Real.cos_nonneg_of_mem_Icc ⟨hm2.1, hm2.2⟩
  set E := Real.sin (radOfDeg dec1) * Real.sin (radOfDeg dec2) +
      Real.cos (radOfDeg dec1) * Real.cos (radOfDeg dec2) *
        Real.cos (radOfDeg ra1 - radOfDeg ra2) with hEdef
  have hE : E ≤ Real.cos (radOfDeg dec1 - radOfDeg dec2) := by
    rw [Real.cos_sub, hEdef]
    nlinarith [Real.cos_le_one (radOfDeg ra1 - radOfDeg ra2),
      mul_nonneg hc1 hc2]
  have hb : |radOfDeg dec1 - radOfDeg dec2| ≤ Real.pi := by
    rw [abs_le]
    constructor <;> linarith [hm1.1, hm1.2, hm2.1, hm2.2]
  have habs : Real.arccos (Real.cos (radOfDeg dec1 - radOfDeg dec2)) =
      |radOfDeg dec1 - radOfDeg dec2| := by
    rw [← Real.cos_abs, Real.arccos_cos (abs_nonneg _) hb]
  have hanti : Real.arccos (Real.cos (radOfDeg dec1 - radOfDeg dec2)) ≤
      Real.arccos E := arccos_antitone hE
  have hrad : |radOfDeg dec1 - radOfDeg dec2| =
      |dec1 - dec2| * (Real.pi / 180) := by
    unfold radOfDeg
    rw [← sub_mul, abs_mul,
      abs_of_pos (show (0 : ℝ) < Real.pi / 180 by positivity)]
  have key : |dec1 - dec2| * (Real.pi / 180) ≤ Real.arccos E := by
    rw [← hrad, ← habs]
    exact hanti
  unfold separationDeg
  rw [← hEdef]
  calc |dec1 - dec2|
      = (|dec1 - dec2| * (Real.pi / 180)) * (180 / Real.pi) := by
        field_simp
    _ ≤ Real.arccos E * (180 / Real.pi) :=
        mul_le_mul_of_nonneg_right key (by positivity)

/-- C3 (amended): cone_search_filter returns exactly those targets that
pass the bounding-box prefilter and whose angular (great-circle)
separation from the center is at most radius; the declination half of the
prefilter excludes no target within the cone (for declinations in
[-90, 90]). The original claim — that the prefilter excludes no in-cone
target at all, including near the RA 0/360 wraparound — fails: see the
counterexample, where an in-cone target is dropped by the right-ascension
half of the box. -/
theorem C3_cone_search_filter (tra tdec ra dec radius : ℝ)
    (h1 : -90 ≤ tdec) (h2 : tdec ≤ 90) (h3 : -90 ≤ dec) (h4 : dec ≤ 90) :
    (coneSearchSelects tra tdec ra dec radius ↔
      inPrefilterBox tra tdec ra dec radius ∧
        separationDeg tra tdec ra dec ≤ radius) ∧
    (separationDeg tra tdec ra dec ≤ radius →
      dec - 2 * radius ≤ tdec ∧ tdec ≤ dec + 2 * radius) := by
  refine ⟨Iff.rfl, fun hsep => ?_⟩
  have hgap := separationDeg_ge_dec_gap tra tdec ra dec h1 h2 h3 h4
  have h0 : 0 ≤ separationDeg tra tdec ra dec := by
    unfold separationDeg
    exact mul_nonneg (Real.arccos_nonneg _) (by positivity)
  have habs : |tdec - dec| ≤ radius := le_trans hgap hsep
  rw [abs_le] at habs
  constructor <;> nlinarith [habs.1, habs.2]

/-- C3 witness: instantiation at a target coinciding with the center of a
radius-0 cone. -/
theorem C3_witness :
    (-90 ≤ (0 : ℝ)) ∧
      ((0 : ℝ) - 2 * 0 ≤ 0 ∧ (0 : ℝ) ≤ 0 + 2 * 0) := by
  have hsep0 : separationDeg 0 0 0 0 ≤ 0 := by
    unfold separationDeg radOfDeg
    simp [Real.arccos_one]
  exact ⟨by norm_num,
    (C3_cone_search_filter 0 0 0 0 0 (by norm_num) (by norm_num)
      (by norm_num) (by norm_num)).2 hsep0⟩

/-- C3 counterexample: with the cone centred at ra = 0, dec = 0 and
radius 10 degrees, the target at ra = 359, dec = 0 lies 1 degree from the
center — well inside the cone — yet fails the bounding-box prefilter
(359 is not within [-20, 20]), so cone_search_filter drops it; the claim
that the prefilter excludes no in-cone target near the RA 0/360
wraparound is false. -/
theorem C3_counterexample :
    separationDeg 359 0 0 0 ≤ 10 ∧
      ¬ inPrefilterBox 359 0 0 0 10 ∧
      ¬ coneSearchSelects 359 0 0 0 10 := by
  have hπ : (0 : ℝ) < Real.pi := Real.pi_pos
  have hsep : separationDeg 359 0 0 0 = 1 := by
    unfold separationDeg radOfDeg
    rw [show ((0 : ℝ) * (Real.pi / 180)) = 0 by ring]
    rw [Real.sin_zero, Real.cos_zero]
    rw [show ((359 : ℝ) * (Real.pi / 180) - 0) =
      2 * Real.pi - Real.pi / 180 by ring]
    rw [Real.cos_two_pi_sub]
    rw [show ((0 : ℝ) * 0 + 1 * 1 * Real.cos (Real.pi / 180)) =
      Real.cos (Real.pi / 180) by ring]
    rw [Real.arccos_cos (by positivity) (by linarith)]
    field_simp
  have hbox : ¬ inPrefilterBox 359 0 0 0 10 := by
    unfold inPrefilterBox
    intro ⟨hA, hB, hC⟩
    norm_num at hB
  exact ⟨by rw [hsep]; norm_num, hbox,
    fun hsel => hbox hsel.1⟩

/-! ## CSV export and import of targets (bhtom_targets/utils.py, C2, C4,
C5)

Python str methods are modelled structurally over the character list of
a `String` (Lean's built-in `String.toUpper`, `trim`, `replace` and
`endsWith` are byte-level and do not reduce in the kernel): `pyStrip` is
str.strip, `pyUpper` is str.upper, `pyEndsWith` is str.endswith and
`pyReplace` is str.replace, which substitutes every non-overlapping
occurrence left to right. The strings involved are ASCII names, where
these agree with Python. -/

def stripLeft : List Char → List Char
  | [] => []
  | c :: cs => if c.isWhitespace then stripLeft cs else c :: cs

/-- Python str.strip(): removes leading and trailing whitespace. -/
def pyStrip (s : String) : String :=
  String.mk ((stripLeft ((stripLeft s.data).reverse)).reverse)

/-- Python str.upper() on ASCII strings. -/
def pyUpper (s : String) : String := String.mk (s.data.map Char.toUpper)

/-- Python str.endswith(suffix). -/
def pyEndsWith (s suffix : String) : Bool := suffix.data.isSuffixOf s.data

/-- Fuelled replacement loop; the fuel (the length of the subject) never
runs out for a nonempty pattern, which consumes at least one character
per step. The only pattern used in this development is '_NAME'. -/
def replaceAllFuel (p r : List Char) : Nat → List Char → List Char
  | 0, s => s
  | _ + 1, [] => []
  | fuel + 1, c :: cs =>
      if p.isPrefixOf (c :: cs) then
        r ++ replaceAllFuel p r fuel ((c :: cs).drop p.length)
      else
        c :: replaceAllFuel p r fuel cs

/-- Python str.replace(p, r): replaces every non-overlapping occurrence
of `p`, scanning left to right. -/
def pyReplace (s p r : String) : String :=
  String.mk (replaceAllFuel p.data r.data s.data.length s.data)

/-- Names returned by Target._meta.get_fields() for the Target model
(bhtom_targets/models.py): reverse accessor names of related models first
(TargetName 'aliases', TargetExtra 'targetextra', TargetList 'targetlist',
TargetGaiaDr3 'dr3', TargetGaiaDr2 'dr2', DownloadedTarget
'downloadedtarget', DataProduct 'dataproduct', ReducedDatum 'reduceddatum'
and BrokerCadence 'brokercadence' from bhtom_dataproducts/models.py, and
'observationrecord', 'spectroscopydatum', 'atlasqueue' of related models
that live outside this repository but are named by export_targets'
removal list), then the concrete fields in declaration order. -/
def target_model_fields : List String :=
  ["brokercadence", "dr3", "dr2", "targetlist", "dataproduct",
   "observationrecord", "reduceddatum", "aliases", "targetextra",
   "spectroscopydatum", "atlasqueue", "downloadedtarget",
   "id", "name", "type", "created", "modified", "ra", "dec", "epoch",
   "parallax", "pm_ra", "pm_dec", "galactic_lng", "galactic_lat",
   "distance", "distance_err", "scheme", "epoch_of_elements",
   "mean_anomaly", "arg_of_perihelion", "eccentricity", "lng_asc_node",
   "inclination", "mean_daily_motion", "semimajor_axis",
   "epoch_of_perihelion", "ephemeris_period", "ephemeris_period_err",
   "ephemeris_epoch", "ephemeris_epoch_err", "perihdist",
   "classification", "discovery_date", "mjd_last", "mag_last",
   "importance", "cadence", "priority", "sun_separation",
   "creation_date", "constellation", "dont_update_me", "phot_class",
   "photometry_plot", "photometry_plot_obs", "photometry_icon_plot",
   "spectroscopy_plot", "data_plot", "filter_last", "cadence_priority",
   "description"]

/-- Keys removed from the export header (utils.py lines 37-39); each
remove() deletes the first occurrence, and a missing key is swallowed by
the try/except around it. -/
def header_removal_keys : List String :=
  ["id", "brokercadence", "dr3", "dr2", "targetlist", "dataproduct",
   "observationrecord", "reduceddatum", "aliases", "targetextra",
   "photometry_plot", "photometry_plot_obs", "photometry_icon_plot",
   "spectroscopy_plot", "data_plot", "modified", "created",
   "spectroscopydatum", "atlasqueue"]

/-- Header of the CSV produced by export_targets: the Target model field
names, then the distinct TargetExtra keys, then one '<SOURCE>_name'
column per distinct TargetName source, with the removal keys erased. -/
def exportHeader (extraKeys : List String) (sources : List String) :
    List String :=
  header_removal_keys.foldl (fun fs k => fs.erase k)
    (target_model_fields ++ extraKeys
      ++ sources.map (fun sn => pyUpper sn ++ "_name"))

/-- Target model field names that survive the removal list: the reverse
accessor 'downloadedtarget' (absent from the removal list) and the
exportable concrete fields. -/
def csv_base_header : List String :=
  ["downloadedtarget", "name", "type", "ra", "dec", "epoch", "parallax",
   "pm_ra", "pm_dec", "galactic_lng", "galactic_lat", "distance",
   "distance_err", "scheme", "epoch_of_elements", "mean_anomaly",
   "arg_of_perihelion", "eccentricity", "lng_asc_node", "inclination",
   "mean_daily_motion", "semimajor_axis", "epoch_of_perihelion",
   "ephemeris_period", "ephemeris_period_err", "ephemeris_epoch",
   "ephemeris_epoch_err", "perihdist", "classification",
   "discovery_date", "mjd_last", "mag_last", "importance", "cadence",
   "priority", "sun_separation", "creation_date", "constellation",
   "dont_update_me", "phot_class", "filter_last", "cadence_priority",
   "description"]

theorem foldl_erase_append (keys : List String) :
    ∀ (A B : List String), (∀ k ∈ keys, k ∉ B) →
      keys.foldl (fun fs k => fs.erase k) (A ++ B) =
        (keys.foldl (fun fs k => fs.erase k) A) ++ B := by
  induction keys with
  | nil => intro A B _; rfl
  | cons k ks ih =>
      intro A B h
      simp only [List.foldl_cons]
      have hkB : k ∉ B := h k (List.mem_cons_self k ks)
      have hstep : (A ++ B).erase k = A.erase k ++ B := by
        by_cases hkA : k ∈ A
        · exact List.erase_append_left B hkA
        · rw [List.erase_append_right B hkA, List.erase_of_not_mem hkB,
            List.erase_of_not_mem hkA]
      rw [hstep]
      exact ih (A.erase k) B (fun q hq => h q (List.mem_cons_of_mem k hq))

theorem exportHeader_split (extraKeys sources : List String)
    (h1 : ∀ k ∈ header_removal_keys, k ∉ extraKeys)
    (h2 : ∀ k ∈ header_removal_keys,
        k ∉ sources.map (fun sn => pyUpper sn ++ "_name")) :
    exportHeader extraKeys sources =
      csv_base_header ++ extraKeys
        ++ sources.map (fun sn => pyUpper sn ++ "_name") := by
  unfold exportHeader
  rw [List.append_assoc, foldl_erase_append header_removal_keys
    target_model_fields
    (extraKeys ++ sources.map (fun sn => pyUpper sn ++ "_name"))
    (by
      intro k hk
      rw [List.mem_append]
      rintro (hA | hB)
      · exact h1 k hk hA
      · exact h2 k hk hB)]
  rw [show header_removal_keys.foldl (fun fs k => fs.erase k)
      target_model_fields = csv_base_header from by decide]
  rw [List.append_assoc]

/-- C4: the CSV header written by export_targets consists of the Target
model field names with the bookkeeping keys removed, followed by the
distinct TargetExtra keys of the exported targets, followed by one
'<SOURCE>_name' column (source uppercased) per distinct TargetName
source, provided no extra key or alias column collides with a bookkeeping
key. -/
theorem C4_export_header (extraKeys sources : List String)
    (h1 : ∀ k ∈ header_removal_keys, k ∉ extraKeys)
    (h2 : ∀ k ∈ header_removal_keys,
        k ∉ sources.map (fun sn => pyUpper sn ++ "_name")) :
    exportHeader extraKeys sources =
      csv_base_header ++ extraKeys
        ++ sources.map (fun sn => pyUpper sn ++ "_name") :=
  exportHeader_split extraKeys sources h1 h2

/-- C4 witness: instantiation at one extra key and one alias source. -/
theorem C4_witness :
    exportHeader ["redshift"] ["gaia"] =
      csv_base_header ++ ["redshift"]
        ++ (["gaia"].map (fun sn => pyUpper sn ++ "_name")) :=
  C4_export_header ["redshift"] ["gaia"] (by decide) (by decide)

/-- k.upper().replace('_NAME', '') as computed by import_targets (utils.py
lines 99 and 114). -/
def columnSource (k : String) : String := pyReplace (pyUpper k) "_NAME" ""

/-- Alias-column test of import_targets (line 100): the key is not 'name',
ends with 'name', and its uppercased form with every '_NAME' occurrence
removed is among the uppercased configured source choices. -/
def isAliasColumn (sources : List String) (k : String) : Bool :=
  k ≠ "name" && pyEndsWith k "name"
    && (columnSource k ∈ sources.map (fun s => pyUpper s))

/-- Preprocessing of a CSV row (utils.py line 88): keys and values are
stripped, and base-field columns whose stripped value is empty are
dropped. -/
def preprocessRow (row : List (String × String)) : List (String × String) :=
  (row.map (fun kv => (pyStrip kv.1, pyStrip kv.2))).filter
    (fun kv => !(kv.1 ∈ target_model_fields && kv.2 = ""))

/-- State of the classification loop of import_targets (lines 89-105). -/
structure RowClass where
  names : List (String × String)
  extras : List (String × String)
  fields : List (String × String)
deriving DecidableEq, Repr

/-- Assignment d[k] = v on a Python dict of strings. -/
def dictUpd : List (String × String) → String → String →
    List (String × String)
  | [], k, v => [(k, v)]
  | kv :: rest, k, v =>
      if kv.1 = k then (k, v) :: rest else kv :: dictUpd rest k v

/-- One iteration of the classification loop of import_targets: an alias
column updates target_names under its derived source name, a key that is
no Target model field is appended to target_extra_fields, and any other
key is recorded in target_fields. -/
def classifyStep (sources : List String) (acc : RowClass)
    (kv : String × String) : RowClass :=
  if isAliasColumn sources kv.1 then
    { acc with names := dictUpd acc.names (columnSource kv.1) kv.2 }
  else if kv.1 ∉ target_model_fields then
    { acc with extras := acc.extras ++ [kv] }
  else
    { acc with fields := acc.fields ++ [kv] }

/-- Classification of a preprocessed CSV row by import_targets. -/
def import_classify_row (sources : List String)
    (row : List (String × String)) : RowClass :=
  row.foldl (classifyStep sources) ⟨[], [], []⟩

/-- TargetName rows created at utils.py lines 112-115: the stored
source_name re-applies upper().replace('_NAME', '') to the dictionary
key. -/
def createdAliases (rc : RowClass) : List (String × String) :=
  rc.names.map (fun sn => (columnSource sn.1, sn.2))

theorem dictUpd_append (d : List (String × String)) (k v : String)
    (h : k ∉ d.map Prod.fst) : dictUpd d k v = d ++ [(k, v)] := by
  induction d with
  | nil => rfl
  | cons kv rest ih =>
      simp only [List.map_cons, List.mem_cons] at h
      push_neg at h
      have hne : ¬(kv.1 = k) := fun hc => h.1 hc.symm
      simp only [dictUpd, if_neg hne, List.cons_append, ih h.2]

theorem classify_extras (sources : List String) :
    ∀ (row : List (String × String)) (acc : RowClass),
      (row.foldl (classifyStep sources) acc).extras =
        acc.extras ++ row.filter
          (fun kv => !(isAliasColumn sources kv.1)
            && kv.1 ∉ target_model_fields) := by
  intro row
  induction row with
  | nil => intro acc; simp
  | cons kv rest ih =>
      intro acc
      simp only [List.foldl_cons, List.filter_cons]
      by_cases ha : isAliasColumn sources kv.1 = true
      · rw [ih]
        simp [classifyStep, ha]
      · by_cases hb : kv.1 ∈ target_model_fields
        · rw [ih]
          simp [classifyStep, ha, hb]
        · rw [ih]
          simp [classifyStep, ha, hb]

theorem classify_fields (sources : List String) :
    ∀ (row : List (String × String)) (acc : RowClass),
      (row.foldl (classifyStep sources) acc).fields =
        acc.fields ++ row.filter
          (fun kv => !(isAliasColumn sources kv.1)
            && kv.1 ∈ target_model_fields) := by
  intro row
  induction row with
  | nil => intro acc; simp
  | cons kv rest ih =>
      intro acc
      simp only [List.foldl_cons, List.filter_cons]
      by_cases ha : isAliasColumn sources kv.1 = true
      · rw [ih]
        simp [classifyStep, ha]
      · by_cases hb : kv.1 ∈ target_model_fields
        · rw [ih]
          simp [classifyStep, ha, hb]
        · rw [ih]
          simp [classifyStep, ha, hb]

theorem classify_names (sources : List String) :
    ∀ (row : List (String × String)) (acc : RowClass),
      ((acc.names.map Prod.fst)
        ++ (row.filter (fun kv => isAliasColumn sources kv.1)).map
             (fun kv => columnSource kv.1)).Nodup →
      (row.foldl (classifyStep sources) acc).names =
        acc.names ++ (row.filter (fun kv => isAliasColumn sources kv.1)).map
          (fun kv => (columnSource kv.1, kv.2)) := by
  intro row
  induction row with
  | nil => intro acc _; simp
  | cons kv rest ih =>
      intro acc hnd
      rw [List.filter_cons] at hnd
      simp only [List.foldl_cons, List.filter_cons]
      by_cases ha : isAliasColumn sources kv.1 = true
      · simp only [ha, if_true, List.map_cons] at hnd
        simp only [ha, if_true, List.map_cons]
        have hfresh : columnSource kv.1 ∉ acc.names.map Prod.fst := by
          intro hc
          have hdisj := (List.nodup_append.mp hnd).2.2
          exact hdisj hc (List.mem_cons_self _ _)
        have hstep : classifyStep sources acc kv =
            ⟨acc.names ++ [(columnSource kv.1, kv.2)],
             (classifyStep sources acc kv).extras,
             (classifyStep sources acc kv).fields⟩ := by
          simp [classifyStep, ha, dictUpd_append acc.names _ _ hfresh]
        rw [hstep]
        have hnd' : (((acc.names ++ [(columnSource kv.1, kv.2)]).map
            Prod.fst) ++ (rest.filter
              (fun kv => isAliasColumn sources kv.1)).map
                (fun kv => columnSource kv.1)).Nodup := by
          simp only [List.map_append, List.map_cons, List.map_nil]
          rw [List.append_assoc]
          simpa using hnd
        rw [ih _ hnd']
        simp
      · simp only [ha, Bool.false_eq_true, if_false] at hnd
        simp only [ha, Bool.false_eq_true, if_false]
        have hstep : classifyStep sources acc kv =
            ⟨acc.names, (classifyStep sources acc kv).extras,
             (classifyStep sources acc kv).fields⟩ := by
          by_cases hb : kv.1 ∈ target_model_fields <;>
            simp [classifyStep, ha, hb]
        rw [hstep]
        exact ih _ hnd

/-- C5 (amended): after stripping and dropping base-field columns with
empty stripped values, each column key k other than 'name' that ends with
'name' and whose uppercased form with every occurrence of '_NAME' removed
(Python str.replace semantics) is one of the uppercased configured source
choices is recorded in the target_names dictionary under that derived
source name; each remaining column whose key is not a Target model field
name is stored as a TargetExtra key/value pair; the remaining columns
become the created target's base fields. Stated when distinct alias
columns derive distinct source names (otherwise the dictionary keeps only
the last one). The original claim derives the source by removing the
'_NAME' suffix only; the code removes every occurrence: see the
counterexample. -/
theorem C5_import_row_classification (sources : List String)
    (row : List (String × String))
    (hnd : (((preprocessRow row).filter
        (fun kv => isAliasColumn sources kv.1)).map
          (fun kv => columnSource kv.1)).Nodup) :
    (import_classify_row sources (preprocessRow row)).names =
      ((preprocessRow row).filter
        (fun kv => isAliasColumn sources kv.1)).map
          (fun kv => (columnSource kv.1, kv.2)) ∧
    (import_classify_row sources (preprocessRow row)).extras =
      (preprocessRow row).filter
        (fun kv => !(isAliasColumn sources kv.1)
          && kv.1 ∉ target_model_fields) ∧
    (import_classify_row sources (preprocessRow row)).fields =
      (preprocessRow row).filter
        (fun kv => !(isAliasColumn sources kv.1)
          && kv.1 ∈ target_model_fields) := by
  refine ⟨?_, ?_, ?_⟩
  · have := classify_names sources (preprocessRow row) ⟨[], [], []⟩
      (by simpa using hnd)
    simpa [import_classify_row] using this
  · have := classify_extras sources (preprocessRow row) ⟨[], [], []⟩
    simpa [import_classify_row] using this
  · have := classify_fields sources (preprocessRow row) ⟨[], [], []⟩
    simpa [import_classify_row] using this

/-- C5 witness: instantiation at a row with a base field, an alias
column, an extra column and an empty base-field column. -/
theorem C5_witness :
    (import_classify_row ["gaia"] (preprocessRow
        [("name", "T1"), ("GAIA_name", "x"), ("redshift", "0.5"),
         ("ra", "")])).names =
      ((preprocessRow [("name", "T1"), ("GAIA_name", "x"),
          ("redshift", "0.5"), ("ra", "")]).filter
        (fun kv => isAliasColumn ["gaia"] kv.1)).map
          (fun kv => (columnSource kv.1, kv.2)) :=
  (C5_import_row_classification ["gaia"]
    [("name", "T1"), ("GAIA_name", "x"), ("redshift", "0.5"), ("ra", "")]
    (by decide)).1

/-- C5 counterexample: with configured source choices ['AB'], the column
'a_nameb_name' is no alias column under the claim's suffix-removal
reading (uppercased 'A_NAMEB_NAME' minus the '_NAME' suffix is 'A_NAMEB',
which is no source), so the claim stores it as a TargetExtra; the code's
replace removes both occurrences of '_NAME', derives source 'AB', and
stores the column as a TargetName alias with no TargetExtra. -/
theorem C5_counterexample :
    (import_classify_row ["AB"]
        (preprocessRow [("a_nameb_name", "X")])).names = [("AB", "X")] ∧
      (import_classify_row ["AB"]
        (preprocessRow [("a_nameb_name", "X")])).extras = [] ∧
      String.mk ((pyUpper "a_nameb_name").data.take
          ((pyUpper "a_nameb_name").data.length - 5)) = "A_NAMEB" ∧
      ¬("A_NAMEB" ∈ ["AB"].map (fun s => pyUpper s)) := by
  decide

/-! ## CSV round trip of a single target (C2) -/

/-- Editable concrete Target fields that carry values in the exported
CSV: the model_to_dict output of export_targets minus the per-row removal
list (utils.py lines 51-64); equal to csv_base_header without the reverse
accessor 'downloadedtarget', which never carries a value. -/
def exportable_base_fields : List String :=
  ["name", "type", "ra", "dec", "epoch", "parallax",
   "pm_ra", "pm_dec", "galactic_lng", "galactic_lat", "distance",
   "distance_err", "scheme", "epoch_of_elements", "mean_anomaly",
   "arg_of_perihelion", "eccentricity", "lng_asc_node", "inclination",
   "mean_daily_motion", "semimajor_axis", "epoch_of_perihelion",
   "ephemeris_period", "ephemeris_period_err", "ephemeris_epoch",
   "ephemeris_epoch_err", "perihdist", "classification",
   "discovery_date", "mjd_last", "mag_last", "importance", "cadence",
   "priority", "sun_separation", "creation_date", "constellation",
   "dont_update_me", "phot_class", "filter_last", "cadence_priority",
   "description"]

/-- Stored state of one Target row with its TargetExtra and TargetName
rows: base-field values as strings with none for NULL, extras as
key/value pairs, aliases as source_name/name pairs. -/
structure StoredTarget where
  fields : List (String × Option String)
  extras : List (String × String)
  names : List (String × String)
deriving DecidableEq, Repr

/-- Django defaults of the exportable Target fields as stored values,
used by Target.objects.create for omitted columns (models.py): CharFields
with default '' ('name', 'type', 'scheme', 'filter_last'), numeric
defaults 0 ('mjd_last', 'importance', 'cadence', 'priority',
'cadence_priority') and 100 ('mag_last'), and NULL for every other
nullable field. -/
def target_field_defaults (f : String) : Option String :=
  if f = "name" ∨ f = "type" ∨ f = "scheme" ∨ f = "filter_last" then
    some ""
  else if f = "mjd_last" ∨ f = "importance" ∨ f = "cadence"
      ∨ f = "priority" ∨ f = "cadence_priority" then
    some "0"
  else if f = "mag_last" then some "100"
  else none

/-- Lookup in an association list (Python dict read). -/
def assocLookup {β : Type} (d : List (String × β)) (k : String) :
    Option β :=
  (d.find? (fun kv => kv.1 = k)).map (fun kv => kv.2)

/-- Row dictionary built by export_targets for one target (utils.py
lines 49-64): the base-field values (None rendered as the empty cell by
the csv writer), the TargetExtra pairs, and one '<SOURCE>_name' entry per
alias; the file/plot and bookkeeping fields deleted by the per-row
removal loop are omitted up front. -/
def exportRowDict (t : StoredTarget) : List (String × String) :=
  t.fields.map (fun kv => (kv.1, kv.2.getD ""))
    ++ t.extras
    ++ t.names.map (fun sn => (pyUpper sn.1 ++ "_name", sn.2))

/-- Cells written by csv.DictWriter for a header: the row dictionary's
value for each column, with restval '' for absent columns. -/
def exportCells (header : List String)
    (rowdict : List (String × String)) : List String :=
  header.map (fun f => (assocLookup rowdict f).getD "")

/-- Target.objects.create(**target_fields) of import_targets: provided
columns keep their string value, every other exportable base field takes
its Django default. -/
def createTargetFields (provided : List (String × String)) :
    List (String × Option String) :=
  exportable_base_fields.map (fun f =>
    (f, match assocLookup provided f with
        | some v => some v
        | none => target_field_defaults f))

/-- Round trip of C2: export a single stored target with export_targets
(header from its extras and alias sources, one data row), parse the CSV
back (csv.DictReader pairs the header with the cells), and import it into
an empty database with import_targets. -/
def roundTrip (sources : List String) (t : StoredTarget) : StoredTarget :=
  let header := exportHeader (t.extras.map Prod.fst) (t.names.map Prod.fst)
  let cells := exportCells header (exportRowDict t)
  let rc := import_classify_row sources (preprocessRow (header.zip cells))
  { fields := createTargetFields rc.fields
    extras := rc.extras
    names := createdAliases rc }

theorem zip_self_map {α β : Type} (l : List α) (g : α → β) :
    l.zip (l.map g) = l.map (fun a => (a, g a)) := by
  induction l with
  | nil => rfl
  | cons a rest ih => simp [ih]

theorem assocLookup_eq_none {β : Type} (A : List (String × β))
    (k : String) (h : k ∉ A.map Prod.fst) : assocLookup A k = none := by
  induction A with
  | nil => rfl
  | cons kv rest ih =>
      simp only [List.map_cons, List.mem_cons] at h
      push_neg at h
      unfold assocLookup at ih ⊢
      rw [List.find?_cons_of_neg _ (by simpa using fun hc => h.1 hc.symm)]
      exact ih h.2

theorem assocLookup_append_right {β : Type} (A B : List (String × β))
    (k : String) (h : k ∉ A.map Prod.fst) :
    assocLookup (A ++ B) k = assocLookup B k := by
  induction A with
  | nil => rfl
  | cons kv rest ih =>
      simp only [List.map_cons, List.mem_cons] at h
      push_neg at h
      unfold assocLookup at ih ⊢
      rw [List.cons_append,
        List.find?_cons_of_neg _ (by simpa using fun hc => h.1 hc.symm)]
      exact ih h.2

theorem assocLookup_append_left {β : Type} (A B : List (String × β))
    (k : String) (h : (assocLookup A k).isSome) :
    assocLookup (A ++ B) k = assocLookup A k := by
  induction A with
  | nil => simp [assocLookup] at h
  | cons kv rest ih =>
      unfold assocLookup at ih h ⊢
      by_cases hk : kv.1 = k
      · rw [List.cons_append, List.find?_cons_of_pos _ (by simpa using hk),
          List.find?_cons_of_pos _ (by simpa using hk)]
      · rw [List.cons_append,
          List.find?_cons_of_neg _ (by simpa using hk),
          List.find?_cons_of_neg _ (by simpa using hk)]
        rw [List.find?_cons_of_neg _ (by simpa using hk)] at h
        exact ih h

theorem assocLookup_self {β : Type} (l : List (String × β))
    (hnd : (l.map Prod.fst).Nodup) :
    ∀ kv ∈ l, assocLookup l kv.1 = some kv.2 := by
  induction l with
  | nil => intro kv hkv; simp at hkv
  | cons hd rest ih =>
      intro kv hkv
      simp only [List.map_cons, List.nodup_cons] at hnd
      rcases List.mem_cons.mp hkv with rfl | hkv'
      · unfold assocLookup
        rw [List.find?_cons_of_pos _ (by simp)]
        rfl
      · have hne : ¬(hd.1 = kv.1) := by
          intro hc
          exact hnd.1 (hc ▸ List.mem_map_of_mem Prod.fst hkv')
        unfold assocLookup at ih ⊢
        rw [List.find?_cons_of_neg _ (by simpa using hne)]
        exact ih hnd.2 kv hkv'

theorem exportable_nodup : exportable_base_fields.Nodup := by decide

theorem exportable_sub_tmf :
    ∀ f ∈ exportable_base_fields, f ∈ target_model_fields := by decide

theorem exportable_strip :
    ∀ f ∈ exportable_base_fields, pyStrip f = f := by decide

theorem exportable_name_test :
    ∀ f ∈ exportable_base_fields,
      f = "name" ∨ pyEndsWith f "name" = false := by decide

theorem csv_base_header_eq :
    csv_base_header = "downloadedtarget" :: exportable_base_fields := by
  decide

theorem exportable_alias_false (S : List String) (f : String)
    (hf : f ∈ exportable_base_fields) : isAliasColumn S f = false := by
  rcases exportable_name_test f hf with rfl | h
  · simp [isAliasColumn]
  · simp [isAliasColumn, h]

theorem assocLookup_map_value {β γ : Type} (l : List (String × β))
    (g : β → γ) (k : String) :
    assocLookup (l.map (fun kv => (kv.1, g kv.2))) k =
      (assocLookup l k).map g := by
  induction l with
  | nil => rfl
  | cons kv rest ih =>
      unfold assocLookup at ih ⊢
      by_cases hk : kv.1 = k
      · rw [List.map_cons, List.find?_cons_of_pos _ (by simpa using hk),
          List.find?_cons_of_pos _ (by simpa using hk)]
        rfl
      · rw [List.map_cons, List.find?_cons_of_neg _ (by simpa using hk),
          List.find?_cons_of_neg _ (by simpa using hk)]
        exact ih

theorem assocLookup_filter_map_self (l : List (String × Option String))
    (hnd : (l.map Prod.fst).Nodup) :
    ∀ kv ∈ l,
      assocLookup ((l.map (fun x => (x.1, x.2.getD ""))).filter
          (fun x => !(x.2 = ""))) kv.1 =
        (if kv.2.getD "" = "" then none else some (kv.2.getD "")) := by
  induction l with
  | nil => intro kv h; simp at h
  | cons hd rest ih =>
      intro kv hkv
      simp only [List.map_cons, List.nodup_cons] at hnd
      rcases List.mem_cons.mp hkv with rfl | hkv'
      · by_cases hval : kv.2.getD "" = ""
        · rw [if_pos hval]
          simp only [List.map_cons, List.filter_cons]
          rw [if_neg (by simp [hval])]
          apply assocLookup_eq_none
          intro hc
          obtain ⟨x, hx, hxf⟩ := List.mem_map.mp hc
          have hx' := List.mem_of_mem_filter hx
          obtain ⟨y, hy, rfl⟩ := List.mem_map.mp hx'
          have : kv.1 ∈ rest.map Prod.fst := by
            rw [← hxf]
            exact List.mem_map_of_mem Prod.fst hy
          exact hnd.1 this
        · rw [if_neg hval]
          simp only [List.map_cons, List.filter_cons]
          rw [if_pos (by simp [hval])]
          unfold assocLookup
          rw [List.find?_cons_of_pos _ (by simp)]
          rfl
      · have hne : ¬(hd.1 = kv.1) := fun hc =>
          hnd.1 (hc ▸ List.mem_map_of_mem Prod.fst hkv')
        simp only [List.map_cons, List.filter_cons]
        by_cases hv : hd.2.getD "" = ""
        · rw [if_neg (by simp [hv])]
          exact ih hnd.2 kv hkv'
        · rw [if_pos (by simp [hv])]
          unfold assocLookup
          rw [List.find?_cons_of_neg _ (by simpa using hne)]
          exact ih hnd.2 kv hkv'

theorem export_row_eq (tf : List (String × Option String))
    (te tn : List (String × String))
    (hkeys : tf.map Prod.fst = exportable_base_fields)
    (hexT : ∀ kv ∈ te, kv.1 ∉ target_model_fields)
    (hexnd : (te.map Prod.fst).Nodup)
    (hnmT : ∀ sn ∈ tn, (pyUpper sn.1 ++ "_name") ∉ target_model_fields)
    (hdisj : ∀ sn ∈ tn, (pyUpper sn.1 ++ "_name") ∉ te.map Prod.fst)
    (hNnodup : (tn.map (fun sn => pyUpper sn.1 ++ "_name")).Nodup) :
    (csv_base_header ++ te.map Prod.fst
        ++ tn.map (fun sn => pyUpper sn.1 ++ "_name")).map
      (fun f => (f, (assocLookup
        (tf.map (fun x => (x.1, x.2.getD ""))
          ++ te ++ tn.map (fun sn => (pyUpper sn.1 ++ "_name", sn.2)))
        f).getD ""))
    = ("downloadedtarget", "")
        :: (tf.map (fun x => (x.1, x.2.getD ""))
          ++ te ++ tn.map (fun sn => (pyUpper sn.1 ++ "_name", sn.2))) := by
  have hndtf : (tf.map Prod.fst).Nodup := by
    rw [hkeys]; exact exportable_nodup
  have hFkeys : (tf.map (fun x => (x.1, x.2.getD ""))).map Prod.fst =
      exportable_base_fields := by
    rw [List.map_map]; exact hkeys
  have hnotF : ∀ k, k ∉ exportable_base_fields →
      k ∉ (tf.map (fun x => (x.1, x.2.getD ""))).map Prod.fst := by
    intro k hk
    rw [hFkeys]; exact hk
  have hnotE : ∀ k, k ∈ target_model_fields → k ∉ te.map Prod.fst := by
    intro k hk hc
    obtain ⟨kv, hkv, heq⟩ := List.mem_map.mp hc
    exact hexT kv hkv (heq ▸ hk)
  have hnotN : ∀ k, k ∈ target_model_fields →
      k ∉ (tn.map (fun sn => (pyUpper sn.1 ++ "_name", sn.2))).map
        Prod.fst := by
    intro k hk hc
    rw [List.map_map] at hc
    obtain ⟨sn, hsn, heq⟩ := List.mem_map.mp hc
    have heq' : pyUpper sn.1 ++ "_name" = k := heq
    exact hnmT sn hsn (heq' ▸ hk)
  have h0 : (assocLookup
      (tf.map (fun x => (x.1, x.2.getD ""))
        ++ te ++ tn.map (fun sn => (pyUpper sn.1 ++ "_name", sn.2)))
      "downloadedtarget").getD "" = "" := by
    rw [assocLookup_append_right _ _ _ (by
        rw [List.map_append, List.mem_append]
        rintro (hc | hc)
        · exact hnotF "downloadedtarget" (by decide) hc
        · exact hnotE "downloadedtarget" (by decide) hc),
      assocLookup_eq_none _ _ (hnotN "downloadedtarget" (by decide))]
    rfl
  have hA : exportable_base_fields.map
      (fun f => (f, (assocLookup
        (tf.map (fun x => (x.1, x.2.getD ""))
          ++ te ++ tn.map (fun sn => (pyUpper sn.1 ++ "_name", sn.2)))
        f).getD "")) = tf.map (fun x => (x.1, x.2.getD "")) := by
    rw [← hkeys, List.map_map]
    apply List.map_congr_left
    intro kv hkv
    have h1 : assocLookup (tf.map (fun x => (x.1, x.2.getD ""))) kv.1 =
        some (kv.2.getD "") := by
      rw [assocLookup_map_value tf (fun v => v.getD "") kv.1,
        assocLookup_self tf hndtf kv hkv]
      rfl
    have h2 : assocLookup
        (tf.map (fun x => (x.1, x.2.getD "")) ++ te) kv.1 =
        some (kv.2.getD "") := by
      rw [assocLookup_append_left _ _ _ (by rw [h1]; rfl), h1]
    have h3 : (assocLookup
        (tf.map (fun x => (x.1, x.2.getD ""))
          ++ te ++ tn.map (fun sn => (pyUpper sn.1 ++ "_name", sn.2)))
        kv.1).getD "" = kv.2.getD "" := by
      rw [assocLookup_append_left _ _ _ (by rw [h2]; rfl), h2]
      rfl
    rw [Function.comp_apply, h3]
  have hB : (te.map Prod.fst).map
      (fun f => (f, (assocLookup
        (tf.map (fun x => (x.1, x.2.getD ""))
          ++ te ++ tn.map (fun sn => (pyUpper sn.1 ++ "_name", sn.2)))
        f).getD "")) = te := by
    rw [List.map_map]
    have : ∀ kv ∈ te, ((fun f => (f, (assocLookup
        (tf.map (fun x => (x.1, x.2.getD ""))
          ++ te ++ tn.map (fun sn => (pyUpper sn.1 ++ "_name", sn.2)))
        f).getD "")) ∘ Prod.fst) kv = id kv := by
      intro kv hkv
      have hkF : kv.1 ∉ (tf.map (fun x => (x.1, x.2.getD ""))).map
          Prod.fst := by
        rw [hFkeys]
        intro hc
        exact hexT kv hkv (exportable_sub_tmf kv.1 hc)
      have h1 : assocLookup
          (tf.map (fun x => (x.1, x.2.getD "")) ++ te) kv.1 =
          some kv.2 := by
        rw [assocLookup_append_right _ _ _ hkF,
          assocLookup_self te hexnd kv hkv]
      have h2 : (assocLookup
          (tf.map (fun x => (x.1, x.2.getD ""))
            ++ te ++ tn.map (fun sn => (pyUpper sn.1 ++ "_name", sn.2)))
          kv.1).getD "" = kv.2 := by
        rw [assocLookup_append_left _ _ _ (by rw [h1]; rfl), h1]
        rfl
      rw [Function.comp_apply, h2]
      rfl
    rw [List.map_congr_left this, List.map_id]
  have hC : (tn.map (fun sn => pyUpper sn.1 ++ "_name")).map
      (fun f => (f, (assocLookup
        (tf.map (fun x => (x.1, x.2.getD ""))
          ++ te ++ tn.map (fun sn => (pyUpper sn.1 ++ "_name", sn.2)))
        f).getD "")) =
      tn.map (fun sn => (pyUpper sn.1 ++ "_name", sn.2)) := by
    rw [List.map_map]
    apply List.map_congr_left
    intro sn hsn
    have hkF : (pyUpper sn.1 ++ "_name") ∉
        (tf.map (fun x => (x.1, x.2.getD "")) ++ te).map Prod.fst := by
      rw [List.map_append, List.mem_append, hFkeys]
      rintro (hc | hc)
      · exact hnmT sn hsn (exportable_sub_tmf _ hc)
      · exact hdisj sn hsn hc
    have hNl : assocLookup
        (tn.map (fun sn => (pyUpper sn.1 ++ "_name", sn.2)))
        (pyUpper sn.1 ++ "_name") = some sn.2 := by
      have hNkeys : ((tn.map
          (fun sn => (pyUpper sn.1 ++ "_name", sn.2))).map
            Prod.fst).Nodup := by
        rw [List.map_map]
        exact hNnodup
      exact assocLookup_self _ hNkeys
        (pyUpper sn.1 ++ "_name", sn.2) (List.mem_map_of_mem _ hsn)
    have h2 : (assocLookup
        (tf.map (fun x => (x.1, x.2.getD ""))
          ++ te ++ tn.map (fun sn => (pyUpper sn.1 ++ "_name", sn.2)))
        (pyUpper sn.1 ++ "_name")).getD "" = sn.2 := by
      rw [assocLookup_append_right _ _ _ hkF, hNl]
      rfl
    rw [Function.comp_apply, h2]
  rw [csv_base_header_eq, List.cons_append, List.map_append,
    List.map_cons, List.map_append, h0, hA, hB, hC, List.cons_append]

theorem preprocess_row_eq (tf : List (String × Option String))
    (te tn : List (String × String))
    (hkeys : tf.map Prod.fst = exportable_base_fields)
    (hfstrip : ∀ kv ∈ tf, ∀ v, kv.2 = some v → pyStrip v = v)
    (hexS : ∀ kv ∈ te, pyStrip kv.1 = kv.1 ∧ pyStrip kv.2 = kv.2
      ∧ kv.1 ∉ target_model_fields)
    (hnmS : ∀ sn ∈ tn,
      pyStrip (pyUpper sn.1 ++ "_name") = pyUpper sn.1 ++ "_name"
      ∧ pyStrip sn.2 = sn.2
      ∧ (pyUpper sn.1 ++ "_name") ∉ target_model_fields) :
    preprocessRow (("downloadedtarget", "")
        :: (tf.map (fun x => (x.1, x.2.getD ""))
          ++ te ++ tn.map (fun sn => (pyUpper sn.1 ++ "_name", sn.2)))) =
      (tf.map (fun x => (x.1, x.2.getD ""))).filter
          (fun kv => !(kv.2 = ""))
        ++ te ++ tn.map (fun sn => (pyUpper sn.1 ++ "_name", sn.2)) := by
  unfold preprocessRow
  have hstrip : ∀ kv ∈ ("downloadedtarget", "")
      :: (tf.map (fun x => (x.1, x.2.getD ""))
        ++ te ++ tn.map (fun sn => (pyUpper sn.1 ++ "_name", sn.2))),
      (fun kv => (pyStrip kv.1, pyStrip kv.2)) kv = id kv := by
    intro kv hkv
    rcases List.mem_cons.mp hkv with rfl | hkv'
    · decide
    · rw [List.mem_append, List.mem_append] at hkv'
      rcases hkv' with (hF | hX) | hN
      · obtain ⟨x, hx, rfl⟩ := List.mem_map.mp hF
        have hk : pyStrip x.1 = x.1 :=
          exportable_strip x.1
            (by rw [← hkeys]; exact List.mem_map_of_mem Prod.fst hx)
        have hv : pyStrip (x.2.getD "") = x.2.getD "" := by
          cases hx2 : x.2 with
          | none => decide
          | some v =>
              have := hfstrip x hx v hx2
              simpa using this
        simp only [id_eq, hk, hv]
      · have := hexS kv hX
        simp only [id_eq, this.1, this.2.1]
      · obtain ⟨sn, hsn, rfl⟩ := List.mem_map.mp hN
        have := hnmS sn hsn
        simp only [id_eq, this.1, this.2.1]
  rw [List.map_congr_left hstrip, List.map_id, List.filter_cons,
    if_neg (by decide), List.filter_append, List.filter_append]
  have hfa : (tf.map (fun x => (x.1, x.2.getD ""))).filter
      (fun kv => !(kv.1 ∈ target_model_fields && kv.2 = "")) =
      (tf.map (fun x => (x.1, x.2.getD ""))).filter
        (fun kv => !(kv.2 = "")) := by
    apply List.filter_congr
    intro kv hkv
    obtain ⟨x, hx, rfl⟩ := List.mem_map.mp hkv
    have hmem : x.1 ∈ target_model_fields :=
      exportable_sub_tmf x.1
        (by rw [← hkeys]; exact List.mem_map_of_mem Prod.fst hx)
    simp [hmem]
  have hfb : te.filter
      (fun kv => !(kv.1 ∈ target_model_fields && kv.2 = "")) = te := by
    rw [List.filter_eq_self]
    intro kv hkv
    simp [(hexS kv hkv).2.2]
  have hfc : (tn.map (fun sn => (pyUpper sn.1 ++ "_name", sn.2))).filter
      (fun kv => !(kv.1 ∈ target_model_fields && kv.2 = "")) =
      tn.map (fun sn => (pyUpper sn.1 ++ "_name", sn.2)) := by
    rw [List.filter_eq_self]
    intro kv hkv
    obtain ⟨sn, hsn, rfl⟩ := List.mem_map.mp hkv
    simp [(hnmS sn hsn).2.2]
  rw [hfa, hfb, hfc]

theorem classify_row_eq (sources : List String)
    (tf : List (String × Option String))
    (te tn : List (String × String))
    (hkeys : tf.map Prod.fst = exportable_base_fields)
    (hexA : ∀ kv ∈ te, kv.1 ∉ target_model_fields
      ∧ isAliasColumn sources kv.1 = false)
    (hnmA : ∀ sn ∈ tn,
      isAliasColumn sources (pyUpper sn.1 ++ "_name") = true
      ∧ columnSource (pyUpper sn.1 ++ "_name") = sn.1)
    (hnmnd : (tn.map Prod.fst).Nodup) :
    (import_classify_row sources
        ((tf.map (fun x => (x.1, x.2.getD ""))).filter
            (fun kv => !(kv.2 = ""))
          ++ te
          ++ tn.map (fun sn => (pyUpper sn.1 ++ "_name", sn.2)))).names
        = tn ∧
    (import_classify_row sources
        ((tf.map (fun x => (x.1, x.2.getD ""))).filter
            (fun kv => !(kv.2 = ""))
          ++ te
          ++ tn.map (fun sn => (pyUpper sn.1 ++ "_name", sn.2)))).extras
        = te ∧
    (import_classify_row sources
        ((tf.map (fun x => (x.1, x.2.getD ""))).filter
            (fun kv => !(kv.2 = ""))
          ++ te
          ++ tn.map (fun sn => (pyUpper sn.1 ++ "_name", sn.2)))).fields
        = (tf.map (fun x => (x.1, x.2.getD ""))).filter
            (fun kv => !(kv.2 = "")) := by
  have hFmem : ∀ kv ∈ (tf.map (fun x => (x.1, x.2.getD ""))).filter
      (fun kv => !(kv.2 = "")), kv.1 ∈ exportable_base_fields := by
    intro kv hkv
    have hkv' := List.mem_of_mem_filter hkv
    obtain ⟨x, hx, rfl⟩ := List.mem_map.mp hkv'
    rw [← hkeys]
    exact List.mem_map_of_mem Prod.fst hx
  have hFalias : ∀ kv ∈ (tf.map (fun x => (x.1, x.2.getD ""))).filter
      (fun kv => !(kv.2 = "")), isAliasColumn sources kv.1 = false :=
    fun kv hkv => exportable_alias_false sources kv.1 (hFmem kv hkv)
  have hfilterN : ((tf.map (fun x => (x.1, x.2.getD ""))).filter
        (fun kv => !(kv.2 = ""))
      ++ te
      ++ tn.map (fun sn => (pyUpper sn.1 ++ "_name", sn.2))).filter
        (fun kv => isAliasColumn sources kv.1) =
      tn.map (fun sn => (pyUpper sn.1 ++ "_name", sn.2)) := by
    rw [List.filter_append, List.filter_append]
    rw [List.filter_eq_nil_iff.mpr (by
        intro kv hkv
        simp [hFalias kv hkv]),
      List.filter_eq_nil_iff.mpr (by
        intro kv hkv
        simp [(hexA kv hkv).2]),
      List.filter_eq_self.mpr (by
        intro kv hkv
        obtain ⟨sn, hsn, rfl⟩ := List.mem_map.mp hkv
        simp [(hnmA sn hsn).1])]
    simp
  refine ⟨?_, ?_, ?_⟩
  · unfold import_classify_row
    rw [classify_names sources _ ⟨[], [], []⟩ (by
        simp only [List.map_nil, List.nil_append, hfilterN]
        rw [List.map_map]
        have : (fun kv => columnSource kv.1) ∘
            (fun sn : String × String =>
              (pyUpper sn.1 ++ "_name", sn.2)) =
            fun sn : String × String =>
              columnSource (pyUpper sn.1 ++ "_name") := rfl
        rw [this]
        rw [List.map_congr_left (fun sn hsn => (hnmA sn hsn).2)]
        exact hnmnd)]
    rw [hfilterN, List.map_map, List.nil_append]
    rw [show ((fun kv => (columnSource kv.1, kv.2)) ∘
        (fun sn : String × String => (pyUpper sn.1 ++ "_name", sn.2))) =
        fun sn : String × String =>
          (columnSource (pyUpper sn.1 ++ "_name"), sn.2) from rfl]
    rw [List.map_congr_left (fun sn hsn => by
      rw [(hnmA sn hsn).2])]
    exact List.map_id tn
  · unfold import_classify_row
    rw [classify_extras]
    have e1 : ((tf.map (fun x => (x.1, x.2.getD ""))).filter
        (fun kv => !(kv.2 = ""))).filter
          (fun kv => !(isAliasColumn sources kv.1)
            && kv.1 ∉ target_model_fields) = [] := by
      rw [List.filter_eq_nil_iff]
      intro kv hkv
      have := exportable_sub_tmf kv.1 (hFmem kv hkv)
      simp [this]
    have e2 : te.filter
        (fun kv => !(isAliasColumn sources kv.1)
          && kv.1 ∉ target_model_fields) = te := by
      rw [List.filter_eq_self]
      intro kv hkv
      simp [(hexA kv hkv).1, (hexA kv hkv).2]
    have e3 : (tn.map (fun sn => (pyUpper sn.1 ++ "_name", sn.2))).filter
        (fun kv => !(isAliasColumn sources kv.1)
          && kv.1 ∉ target_model_fields) = [] := by
      rw [List.filter_eq_nil_iff]
      intro kv hkv
      obtain ⟨sn, hsn, rfl⟩ := List.mem_map.mp hkv
      simp [(hnmA sn hsn).1]
    rw [List.nil_append, List.filter_append, List.filter_append,
      e1, e2, e3]
    simp
  · unfold import_classify_row
    rw [classify_fields]
    have f1 : ((tf.map (fun x => (x.1, x.2.getD ""))).filter
        (fun kv => !(kv.2 = ""))).filter
          (fun kv => !(isAliasColumn sources kv.1)
            && kv.1 ∈ target_model_fields) =
        (tf.map (fun x => (x.1, x.2.getD ""))).filter
          (fun kv => !(kv.2 = "")) := by
      rw [List.filter_eq_self]
      intro kv hkv
      have h1 := exportable_sub_tmf kv.1 (hFmem kv hkv)
      simp [h1, hFalias kv hkv]
    have f2 : te.filter
        (fun kv => !(isAliasColumn sources kv.1)
          && kv.1 ∈ target_model_fields) = [] := by
      rw [List.filter_eq_nil_iff]
      intro kv hkv
      simp [(hexA kv hkv).1]
    have f3 : (tn.map (fun sn => (pyUpper sn.1 ++ "_name", sn.2))).filter
        (fun kv => !(isAliasColumn sources kv.1)
          && kv.1 ∈ target_model_fields) = [] := by
      rw [List.filter_eq_nil_iff]
      intro kv hkv
      obtain ⟨sn, hsn, rfl⟩ := List.mem_map.mp hkv
      simp [(hnmA sn hsn).1]
    rw [List.nil_append, List.filter_append, List.filter_append,
      f1, f2, f3]
    simp

theorem createTargetFields_round (tf : List (String × Option String))
    (hkeys : tf.map Prod.fst = exportable_base_fields)
    (hvals2 : ∀ kv ∈ tf,
      (kv.2 = none → target_field_defaults kv.1 = none) ∧
      (kv.2 = some "" → target_field_defaults kv.1 = some "")) :
    createTargetFields ((tf.map (fun x => (x.1, x.2.getD ""))).filter
      (fun x => !(x.2 = ""))) = tf := by
  have hndtf : (tf.map Prod.fst).Nodup := by
    rw [hkeys]; exact exportable_nodup
  unfold createTargetFields
  rw [← hkeys, List.map_map]
  have : ∀ kv ∈ tf, ((fun f =>
      (f, match assocLookup ((tf.map (fun x => (x.1, x.2.getD ""))).filter
            (fun x => !(x.2 = ""))) f with
          | some v => some v
          | none => target_field_defaults f)) ∘ Prod.fst) kv = id kv := by
    intro kv hkv
    rw [Function.comp_apply, id_eq]
    rw [assocLookup_filter_map_self tf hndtf kv hkv]
    by_cases hempty : kv.2.getD "" = ""
    · rw [if_pos hempty]
      show (kv.1, target_field_defaults kv.1) = kv
      cases hx : kv.2 with
      | none =>
          rw [(hvals2 kv hkv).1 hx, ← hx]
      | some s =>
          have hs : s = "" := by
            rw [hx] at hempty
            simpa using hempty
          subst hs
          rw [(hvals2 kv hkv).2 hx, ← hx]
    · rw [if_neg hempty]
      show (kv.1, some (kv.2.getD "")) = kv
      cases hx : kv.2 with
      | none =>
          rw [hx] at hempty
          simp at hempty
      | some s =>
          show (kv.1, some s) = (kv.1, kv.2)
          rw [hx]
  rw [List.map_congr_left this, List.map_id]

/-- C2 (amended): exporting a single target with export_targets and
importing the CSV into an empty database with import_targets recreates a
target with equal base field values, equal extra key/value pairs and
equal per-source alias names, provided: the target's base-field keys are
the exportable Target fields; every stored string survives Python's
strip; base fields that are NULL (or the empty string) have NULL (or
empty-string) Django defaults, so that dropping their empty CSV cells
restores them; extra keys are no Target model field names, no bookkeeping
keys, no alias columns, and are pairwise distinct; alias source names are
pairwise distinct, already uppercase and fixed by the derivation
upper().replace('_NAME',''), and their '<SOURCE>_name' columns collide
with no model field, bookkeeping key or extra key. The original
unconditional claim fails, e.g. for a lowercase stored source name: see
the counterexample. -/
theorem C2_csv_round_trip (sources : List String) (t : StoredTarget)
    (hkeys : t.fields.map Prod.fst = exportable_base_fields)
    (hvals : ∀ kv ∈ t.fields,
      pyStrip (kv.2.getD "") = kv.2.getD "" ∧
      (kv.2 = none → target_field_defaults kv.1 = none) ∧
      (kv.2 = some "" → target_field_defaults kv.1 = some ""))
    (hex : ∀ kv ∈ t.extras,
      pyStrip kv.1 = kv.1 ∧ pyStrip kv.2 = kv.2 ∧
      kv.1 ∉ target_model_fields ∧
      kv.1 ∉ header_removal_keys ∧
      isAliasColumn sources kv.1 = false)
    (hexnd : (t.extras.map Prod.fst).Nodup)
    (hnm : ∀ sn ∈ t.names,
      pyStrip (pyUpper sn.1 ++ "_name") = pyUpper sn.1 ++ "_name" ∧
      pyStrip sn.2 = sn.2 ∧
      (pyUpper sn.1 ++ "_name") ∉ target_model_fields ∧
      (pyUpper sn.1 ++ "_name") ∉ header_removal_keys ∧
      isAliasColumn sources (pyUpper sn.1 ++ "_name") = true ∧
      columnSource (pyUpper sn.1 ++ "_name") = sn.1 ∧
      columnSource sn.1 = sn.1)
    (hnmnd : (t.names.map Prod.fst).Nodup)
    (hdisj : ∀ sn ∈ t.names,
      (pyUpper sn.1 ++ "_name") ∉ t.extras.map Prod.fst) :
    roundTrip sources t = t := by
  obtain ⟨tf, te, tn⟩ := t
  have hexT : ∀ kv ∈ te, kv.1 ∉ target_model_fields :=
    fun kv hkv => (hex kv hkv).2.2.1
  have hnmT : ∀ sn ∈ tn, (pyUpper sn.1 ++ "_name") ∉ target_model_fields :=
    fun sn hsn => (hnm sn hsn).2.2.1
  have hfstrip : ∀ kv ∈ tf, ∀ v, kv.2 = some v → pyStrip v = v := by
    intro kv hkv v hv
    have := (hvals kv hkv).1
    rw [hv] at this
    simpa using this
  have hexS : ∀ kv ∈ te, pyStrip kv.1 = kv.1 ∧ pyStrip kv.2 = kv.2
      ∧ kv.1 ∉ target_model_fields :=
    fun kv hkv => ⟨(hex kv hkv).1, (hex kv hkv).2.1, (hex kv hkv).2.2.1⟩
  have hnmS : ∀ sn ∈ tn,
      pyStrip (pyUpper sn.1 ++ "_name") = pyUpper sn.1 ++ "_name"
      ∧ pyStrip sn.2 = sn.2
      ∧ (pyUpper sn.1 ++ "_name") ∉ target_model_fields :=
    fun sn hsn => ⟨(hnm sn hsn).1, (hnm sn hsn).2.1, (hnm sn hsn).2.2.1⟩
  have hexA : ∀ kv ∈ te, kv.1 ∉ target_model_fields
      ∧ isAliasColumn sources kv.1 = false :=
    fun kv hkv => ⟨(hex kv hkv).2.2.1, (hex kv hkv).2.2.2.2⟩
  have hnmA : ∀ sn ∈ tn,
      isAliasColumn sources (pyUpper sn.1 ++ "_name") = true
      ∧ columnSource (pyUpper sn.1 ++ "_name") = sn.1 :=
    fun sn hsn =>
      ⟨(hnm sn hsn).2.2.2.2.1, (hnm sn hsn).2.2.2.2.2.1⟩
  have hvals2 : ∀ kv ∈ tf,
      (kv.2 = none → target_field_defaults kv.1 = none) ∧
      (kv.2 = some "" → target_field_defaults kv.1 = some "") :=
    fun kv hkv => ⟨(hvals kv hkv).2.1, (hvals kv hkv).2.2⟩
  have hNsrc : (tn.map (fun sn => pyUpper sn.1 ++ "_name")).map
      columnSource = tn.map Prod.fst := by
    rw [List.map_map]
    apply List.map_congr_left
    intro sn hsn
    exact (hnm sn hsn).2.2.2.2.2.1
  have hNnodup : (tn.map (fun sn => pyUpper sn.1 ++ "_name")).Nodup :=
    List.Nodup.of_map columnSource (by rw [hNsrc]; exact hnmnd)
  have hEno : ∀ k ∈ header_removal_keys, k ∉ te.map Prod.fst := by
    intro k hk hmem
    obtain ⟨kv, hkv, rfl⟩ := List.mem_map.mp hmem
    exact (hex kv hkv).2.2.2.1 hk
  have hSno : ∀ k ∈ header_removal_keys,
      k ∉ (tn.map Prod.fst).map (fun sn => pyUpper sn ++ "_name") := by
    intro k hk hmem
    rw [List.map_map] at hmem
    obtain ⟨sn, hsn, heq⟩ := List.mem_map.mp hmem
    have heq' : pyUpper sn.1 ++ "_name" = k := heq
    exact (hnm sn hsn).2.2.2.1 (heq' ▸ hk)
  have hdr := exportHeader_split (te.map Prod.fst) (tn.map Prod.fst)
    hEno hSno
  rw [show (tn.map Prod.fst).map (fun sn => pyUpper sn ++ "_name") =
      tn.map (fun sn => pyUpper sn.1 ++ "_name") from List.map_map _ _ _]
    at hdr
  have h3 := classify_row_eq sources tf te tn hkeys hexA hnmA hnmnd
  have hcreate := createTargetFields_round tf hkeys hvals2
  have hlast : tn.map (fun sn => (columnSource sn.1, sn.2)) = tn := by
    have hpt : ∀ sn ∈ tn, (fun sn : String × String =>
        (columnSource sn.1, sn.2)) sn = id sn := by
      intro sn hsn
      simp only [id_eq]
      rw [(hnm sn hsn).2.2.2.2.2.2]
    rw [List.map_congr_left hpt, List.map_id]
  simp only [roundTrip, exportCells, exportRowDict, createdAliases]
  rw [hdr, zip_self_map]
  rw [export_row_eq tf te tn hkeys hexT hexnd hnmT hdisj hNnodup]
  rw [preprocess_row_eq tf te tn hkeys hfstrip hexS hnmS]
  rw [h3.1, h3.2.1, h3.2.2, hcreate, hlast]

/-- Sample stored target used by the C2 witness: all base fields at their
Django defaults, one extra field and one uppercase Gaia alias. -/
def sampleStoredTarget : StoredTarget :=
  { fields := exportable_base_fields.map
      (fun f => (f, target_field_defaults f))
    extras := [("redshift", "0.5")]
    names := [("GAIA", "x")] }

set_option maxRecDepth 10000 in
/-- C2 witness: the round trip is the identity on the sample target. -/
theorem C2_witness :
    roundTrip ["GAIA"] sampleStoredTarget = sampleStoredTarget :=
  C2_csv_round_trip ["GAIA"] sampleStoredTarget (by decide) (by decide)
    (by decide) (by decide) (by decide) (by decide) (by decide)

/-- Stored target with a lowercase alias source name, used by the C2
counterexample. -/
def lowercaseAliasTarget : StoredTarget :=
  { fields := exportable_base_fields.map
      (fun f => (f, target_field_defaults f))
    extras := []
    names := [("gaia", "x")] }

set_option maxRecDepth 10000 in
/-- C2 counterexample: a target carrying the alias ('gaia', 'x'), with
'gaia' among the configured source choices, exports the column
'GAIA_name'; importing that CSV stores the alias under the uppercased
source 'GAIA', so the recreated target's per-source alias names differ
from the original ones and the round trip is not the identity. -/
theorem C2_counterexample :
    (roundTrip ["gaia"] lowercaseAliasTarget).names = [("GAIA", "x")] ∧
      lowercaseAliasTarget.names = [("gaia", "x")] ∧
      (roundTrip ["gaia"] lowercaseAliasTarget).names ≠
        lowercaseAliasTarget.names := by
  decide
